import Mathlib

/-!
Verification of the litlua literate-programming toolchain (github.com/jwtly10/litlua).

This file gives a shallow embedding of the parts of the repository that the
checked properties are about:

* the document model (`document.go`),
* the dual-mode writer, in particular the shadow writer (`writer.go`),
* the markdown/pragma parser walk (`parser.go`), over an abstract
  CommonMark block-node sequence (the CommonMark parsing itself is done by
  the external goldmark library and is modelled as the already-produced
  pre-order node sequence),
* the transformer and its output-path policy
  (`internal/transformer/transformer.go`, the current generation with the
  `NoLitLuaOutputExt` option), with filesystem writes modelled as an
  explicit effect trace,
* the `filepath` helpers `Base`, `Dir`, `Clean` and `Join` (Unix rules) that
  the transformer uses,
* the request-dispatch skeleton of the two generations of the LSP server
  found in the repository, as far as `$/cancelRequest` bookkeeping is
  concerned.

Go strings are modelled as `List Char`; Go `int` line numbers are modelled
as `Int`.  A Go runtime panic (index out of range, `make` with a negative
size) is modelled by an explicit `panic` error value, so that totality
claims about the shadow writer can be stated and settled.
-/

set_option autoImplicit false

/-- A Go string, modelled as a list of characters. -/
abbrev GoStr : Type := List Char

/-- Shorthand turning a Lean string literal into the `GoStr` model. -/
def gs (s : String) : GoStr := s.data

/-- Go `strings.HasSuffix`, via `List.isSuffixOf`. -/
def goHasSuffix (s suffix : GoStr) : Bool := suffix.isSuffixOf s

/-- Go `strings.TrimSuffix`: removes at most one trailing copy of `suffix`. -/
def goTrimSuffix (s suffix : GoStr) : GoStr :=
  if goHasSuffix s suffix then s.take (s.length - suffix.length) else s

deriving instance DecidableEq for Except

/-! ## Document model (`document.go`) -/

/-- Source position of a code block: 1-indexed start and end line (Go `int`). -/
structure Position where
  StartLine : Int
  EndLine : Int
deriving DecidableEq, Repr

/-- One extracted Lua fenced code block. -/
structure CodeBlock where
  Code : GoStr
  Source : GoStr
  Position : Position
deriving DecidableEq, Repr

/-- Document-level pragmas; Go zero values are the defaults. -/
structure Pragma where
  Output : GoStr := []
  Force : Bool := false
  Debug : Bool := false
deriving DecidableEq, Repr

/-- Metadata of a parsed source file. -/
structure MetaData where
  AbsSource : GoStr
deriving DecidableEq, Repr

/-- A parsed markdown document. -/
structure Document where
  Metadata : MetaData
  Pragmas : Pragma
  Blocks : List CodeBlock
deriving DecidableEq, Repr

/-! ## Writer (`writer.go`) -/

/-- The writer mode enumeration. -/
inductive WriteMode where
  | ModePretty
  | ModeShadow
deriving DecidableEq, Repr

/-- Outcome other than success of the shadow writer: a collision error
(`"line %d already contains code"`, carrying the reported line number) or a
Go runtime panic (out-of-range slice index, or `make` with negative size). -/
inductive ShadowErr where
  | collision (line : Int)
  | panic
deriving DecidableEq, Repr

/-- The lines of a block's code, as Go `strings.Split(code, "\n")`. -/
def codeLines (b : CodeBlock) : List GoStr := b.Code.splitOn '\n'

/-- Number of lines `strings.Split` produces for a block (always at least 1). -/
def numLines (b : CodeBlock) : Nat := (codeLines b).length

/-- The 1-indexed output lines a block writes to:
`StartLine + i` for each line index `i` (`actualIndex + 1` in the source). -/
def placedList (b : CodeBlock) : List Int :=
  (List.range (numLines b)).map (fun k : Nat => b.Position.StartLine + (k : Int))

/-- The inner placement loop of `writeShadow`: place the lines `L` at
0-indexed buffer slots `idx, idx+1, ...`.  `lines[actualIndex]` with an
out-of-range (or negative) index is a Go panic; a non-empty slot is the
collision error reporting line `actualIndex + 1` (`startLine + i` in Go). -/
def placeLines : List GoStr → Int → List GoStr → Except ShadowErr (List GoStr)
  | lines, _, [] => .ok lines
  | lines, idx, l :: rest =>
    if h : 0 ≤ idx ∧ idx.toNat < lines.length then
      if lines.get ⟨idx.toNat, h.2⟩ ≠ [] then
        .error (.collision (idx + 1))
      else
        placeLines (lines.set idx.toNat l) (idx + 1) rest
    else
      .error .panic

/-- Place one block: its first line goes to slot `StartLine - 1`. -/
def placeBlock (lines : List GoStr) (b : CodeBlock) : Except ShadowErr (List GoStr) :=
  placeLines lines (b.Position.StartLine - 1) (codeLines b)

/-- The `for _, block := range doc.Blocks` loop of `writeShadow`, with early
return on error. -/
def placeBlocks : List GoStr → List CodeBlock → Except ShadowErr (List GoStr)
  | lines, [] => .ok lines
  | lines, b :: bs =>
    match placeBlock lines b with
    | .error e => .error e
    | .ok lines1 => placeBlocks lines1 bs

/-- The shadow writer `writeShadow`: size the buffer from the last block's `EndLine`
(`doc.Blocks[len(doc.Blocks)-1]` panics on an empty slice, and
`make([]string, maxLine)` panics for negative `maxLine`), then place every
block.  On success the value is the final line buffer; the actual stream
output happens afterwards (see `shadowStream`). -/
def writeShadow (doc : Document) : Except ShadowErr (List GoStr) :=
  match doc.Blocks.getLast? with
  | none => .error .panic
  | some lastB =>
    let maxLine := lastB.Position.EndLine
    if maxLine < 0 then .error .panic
    else placeBlocks (List.replicate maxLine.toNat []) doc.Blocks

/-- The bytes `writeShadow` writes to the output stream: every `Fprintln`
happens only after the placement loop finished successfully, so an error
produces no output at all. -/
def shadowStream (doc : Document) : GoStr :=
  match writeShadow doc with
  | .ok lines => lines.foldr (fun l acc => l ++ '\n' :: acc) []
  | .error _ => []

/-- A 1-indexed line is targeted by some block of the document. -/
def isPlaced (doc : Document) (p : Int) : Prop :=
  ∃ b ∈ doc.Blocks, p ∈ placedList b

/-! ## Markdown/pragma parser (`parser.go`)

The CommonMark block parsing itself is done by the external goldmark
library; the embedding takes as input the pre-order node sequence that
`ast.Walk` visits (entering only).  Each node carries exactly the payload
`walkAst` inspects: HTML blocks carry their goldmark block subtype (2 is
the `<!-- ... -->` comment subtype) and their rendered text; fenced code
blocks carry their declared language tag, their content-line segments
(each segment keeps its trailing newline, as `line.Value(content)` does)
and the two line numbers `getLineNumber` computes from the byte offsets. -/

/-- One visited node of the markdown block tree, in pre-order. -/
inductive MdNode where
  | document
  | htmlBlock (btype : Nat) (text : GoStr)
  | fencedCode (lang : GoStr) (segs : List GoStr) (startLine endLine : Int)
  | other
deriving DecidableEq, Repr

/-- Go `strconv.ParseBool`: the twelve accepted spellings. -/
def goParseBool (s : GoStr) : Option Bool :=
  if s = gs "1" ∨ s = gs "t" ∨ s = gs "T" ∨ s = gs "TRUE" ∨ s = gs "true" ∨ s = gs "True" then
    some true
  else if s = gs "0" ∨ s = gs "f" ∨ s = gs "F" ∨ s = gs "FALSE" ∨ s = gs "false" ∨ s = gs "False" then
    some false
  else
    none

/-- Whitespace for the `\s` class of the pragma regular expression
(RE2: tab, newline, form feed, carriage return, space). -/
def isSpaceRe (c : Char) : Bool :=
  c = ' ' ∨ c = '\t' ∨ c = '\n' ∨ c = '\x0c' ∨ c = '\r'

/-- Whitespace for Go `strings.TrimSpace` (`unicode.IsSpace`), restricted to
ASCII: space, tab, newline, vertical tab, form feed, carriage return. -/
def isGoSpace (c : Char) : Bool :=
  c = ' ' ∨ c = '\t' ∨ c = '\n' ∨ c = '\x0b' ∨ c = '\x0c' ∨ c = '\r'

/-- Go `strings.TrimSpace` (ASCII whitespace). -/
def goTrimSpace (s : GoStr) : GoStr :=
  ((s.dropWhile isGoSpace).reverse.dropWhile isGoSpace).reverse

/-- A word character for the `\w` class: ASCII letter, digit or underscore. -/
def isWordChar (c : Char) : Bool := c.isAlphanum ∨ c = '_'

/-- Consume a literal token at the front of the string, or fail. -/
def dropLit (lit s : GoStr) : Option GoStr :=
  if lit.isPrefixOf s then some (s.drop lit.length) else none

/-- Matching against the pragma pattern
`^<!--\s*@pragma\s+(\w+)\s*:\s*([^>]+?)\s*-->$`, returning the key and
value submatches.  The lazy value group together with the anchored
`\s*-->$` tail is equivalent to: the string ends in `-->`, and the value is
what remains after removing that suffix and trailing whitespace, required
to be non-empty and free of `>`. -/
def pragmaMatch (s : GoStr) : Option (GoStr × GoStr) := do
  let s1 ← dropLit (gs "<!--") s
  let s2 := s1.dropWhile isSpaceRe
  let s3 ← dropLit (gs "@pragma") s2
  match s3 with
  | [] => none
  | c :: _ =>
    if isSpaceRe c then
      let s4 := s3.dropWhile isSpaceRe
      let key := s4.takeWhile isWordChar
      if key = [] then none
      else
        let s5 := (s4.drop key.length).dropWhile isSpaceRe
        let s6 ← dropLit (gs ":") s5
        let s7 := s6.dropWhile isSpaceRe
        if goHasSuffix s7 (gs "-->") then
          let value := (((s7.take (s7.length - 3)).reverse.dropWhile isSpaceRe).reverse)
          if value = [] ∨ value.contains '>' then none
          else some (key, value)
        else none
    else none

/-- Parse errors of `ParseMarkdownDoc`: a pragma value that fails boolean
parsing (`"could not parse <key> pragma value"`, carrying the key), or zero
collected Lua blocks (`"no lua code blocks found in document"`). -/
inductive ParseErr where
  | pragmaErr (key : GoStr)
  | noLuaBlocks
deriving DecidableEq, Repr

/-- Pragma extraction `extractPragmaFromLine`: trim the line, match the pragma pattern (a
non-match is silently ignored), then dispatch on the key; `debug` and
`force` values must parse as booleans, unknown keys are ignored. -/
def extractPragmaFromLine (p : Pragma) (line : GoStr) : Except ParseErr Pragma :=
  match pragmaMatch (goTrimSpace line) with
  | none => .ok p
  | some (key, value) =>
    if key = gs "output" then .ok { p with Output := value }
    else if key = gs "debug" then
      match goParseBool value with
      | some b => .ok { p with Debug := b }
      | none => .error (.pragmaErr (gs "debug"))
    else if key = gs "force" then
      match goParseBool value with
      | some b => .ok { p with Force := b }
      | none => .error (.pragmaErr (gs "force"))
    else .ok p

/-- The mutable traversal state of `walkAst`: the
`hasWalkedOtherNodes` flag and the document being filled in. -/
structure WalkState where
  flag : Bool
  prag : Pragma
  blocks : List CodeBlock
deriving DecidableEq, Repr

/-- One `ast.Walk` visit (entering).  Any node that is neither an HTML
block (of any subtype) nor the document root sets the flag; pragma
extraction runs only on subtype-2 HTML blocks while the flag is still
false; fenced blocks tagged exactly `lua` with at least one content line
are appended as code blocks. -/
def walkStep (md : MetaData) (st : WalkState) (n : MdNode) : Except ParseErr WalkState :=
  let flag' :=
    match n with
    | .htmlBlock _ _ => st.flag
    | .document => st.flag
    | _ => true
  match n with
  | .htmlBlock btype text =>
    if ¬st.flag ∧ btype = 2 then
      match extractPragmaFromLine st.prag text with
      | .error e => .error e
      | .ok p => .ok { flag := flag', prag := p, blocks := st.blocks }
    else .ok { st with flag := flag' }
  | .fencedCode lang segs s e =>
    if lang = gs "lua" ∧ segs ≠ [] then
      .ok { st with
              flag := flag',
              blocks := st.blocks ++
                [{ Code := segs.flatten, Source := md.AbsSource,
                   Position := { StartLine := s, EndLine := e } }] }
    else .ok { st with flag := flag' }
  | _ => .ok { st with flag := flag' }

/-- The walk over the whole node sequence, with early exit on error. -/
def walkNodes (md : MetaData) : WalkState → List MdNode → Except ParseErr WalkState
  | st, [] => .ok st
  | st, n :: ns =>
    match walkStep md st n with
    | .error e => .error e
    | .ok st1 => walkNodes md st1 ns

/-- The initial walk state: flag false, zero-valued pragmas, no blocks. -/
def initWalkState : WalkState := { flag := false, prag := {}, blocks := [] }

/-- The parser entry `ParseMarkdownDoc`: walk the tree, then fail if no Lua blocks were
collected, otherwise return the populated document. -/
def parseMarkdownDoc (md : MetaData) (ns : List MdNode) : Except ParseErr Document :=
  match walkNodes md initWalkState ns with
  | .error e => .error e
  | .ok st =>
    if st.blocks = [] then .error .noLuaBlocks
    else .ok { Metadata := md, Pragmas := st.prag, Blocks := st.blocks }

/-- The code block (if any) a single node contributes: fenced, tagged
exactly `lua`, with at least one content line. -/
def extractCode (md : MetaData) (n : MdNode) : Option CodeBlock :=
  match n with
  | .fencedCode lang segs s e =>
    if lang = gs "lua" ∧ segs ≠ [] then
      some { Code := segs.flatten, Source := md.AbsSource,
             Position := { StartLine := s, EndLine := e } }
    else none
  | _ => none

/-! ## `path/filepath` helpers (Unix separator rules) -/

/-- Go `filepath.Clean` for one already-split element list: process `.` and
`..` elements against an output stack (the semantics of Go's lazybuf loop). -/
def cleanElems (rooted : Bool) (elems : List GoStr) : List GoStr :=
  elems.foldl
    (fun out e =>
      if e = [] ∨ e = gs "." then out
      else if e = gs ".." then
        if out ≠ [] ∧ out.getLast? ≠ some (gs "..") then out.dropLast
        else if rooted then out
        else out ++ [gs ".."]
      else out ++ [e])
    []

/-- Go `filepath.Clean` (Unix): empty is `.`; otherwise simplify the
separator-split elements and re-join, keeping a leading `/` for rooted
paths; an empty result is `.`. -/
def goClean (p : GoStr) : GoStr :=
  if p = [] then gs "."
  else
    let rooted := p.head? = some '/'
    let out := cleanElems rooted (p.splitOn '/')
    let joined := (if rooted then gs "/" else []) ++ List.intercalate (gs "/") out
    if joined = [] then gs "." else joined

/-- Go `filepath.Base` (Unix): empty is `.`; strip trailing separators,
take everything after the last separator; all-separators is `/`. -/
def goBase (p : GoStr) : GoStr :=
  if p = [] then gs "."
  else
    let q := (p.reverse.dropWhile (fun c => c = '/')).reverse
    let r := (q.reverse.takeWhile (fun c => c ≠ '/')).reverse
    if r = [] then gs "/" else r

/-- Go `filepath.Dir` (Unix): `Clean` of everything up to and including the
last separator (empty when there is none). -/
def goDir (p : GoStr) : GoStr :=
  goClean ((p.reverse.dropWhile (fun c => c ≠ '/')).reverse)

/-- Go `filepath.Join` of two elements: empty elements are skipped, the
rest are joined with `/` and cleaned; all-empty joins to the empty string. -/
def goJoin (a b : GoStr) : GoStr :=
  if a = [] then (if b = [] then [] else goClean b)
  else if b = [] then goClean a
  else goClean (a ++ '/' :: b)

/-! ## Transformer (`internal/transformer/transformer.go`, current
generation with the `NoLitLuaOutputExt` option)

Filesystem activity is modelled as an ordered effect trace; an error
returned before an operation means the operation's effect never appears in
the trace.  I/O failures (backup copy errors, `MkdirAll`/`Create` errors)
are not modelled: they would only truncate the trace further, and none of
the checked properties depend on them. -/

/-- Transformer construction options; Go zero values are the defaults. -/
structure TransformOptions where
  WriterMode : WriteMode
  NoBackup : Bool := false
  RequirePragmaOutput : Bool := false
  NoLitLuaOutputExt : Bool := false
deriving DecidableEq, Repr

/-- The derived output extension of `NewTransformer`:
`.litlua.lua` unless `NoLitLuaOutputExt` is set, in which case `.lua`. -/
def outputExtOf (opts : TransformOptions) : GoStr :=
  if ¬opts.NoLitLuaOutputExt then gs ".litlua.lua" else gs ".lua"

/-- The extension policy `CleanPragmaOutputExt`: a set output with `force: true` is used
verbatim; otherwise strip one trailing `.lua`, then one trailing
`.litlua`, then append the configured output extension. -/
def CleanPragmaOutputExt (opts : TransformOptions) (pragma : Pragma) : GoStr :=
  if pragma.Output ≠ [] ∧ pragma.Force then pragma.Output
  else goTrimSuffix (goTrimSuffix pragma.Output (gs ".lua")) (gs ".litlua") ++ outputExtOf opts

/-- The canonical input suffix `InputExt`. -/
def InputExt : GoStr := gs ".litlua.md"

/-- Default resolution `resolveTransformToAbsPath`: with no pragma output, strip `.litlua.md`
(preferred) or legacy `.md`, else append; with a pragma output, join the
source directory with the cleaned pragma output. -/
def resolveTransformToAbsPath (opts : TransformOptions) (absSrcPath : GoStr)
    (pragma : Pragma) : GoStr :=
  if pragma.Output = [] then
    if goHasSuffix absSrcPath InputExt then
      goTrimSuffix absSrcPath InputExt ++ outputExtOf opts
    else if goHasSuffix absSrcPath (gs ".md") then
      goTrimSuffix absSrcPath (gs ".md") ++ outputExtOf opts
    else absSrcPath ++ outputExtOf opts
  else
    goJoin (goDir absSrcPath) (CleanPragmaOutputExt opts pragma)

/-- A markdown source handed to the transformer: the metadata plus the
content, the latter already in the form of the parser's node sequence. -/
structure MarkdownSource where
  Metadata : MetaData
  Nodes : List MdNode
deriving DecidableEq, Repr

/-- Errors of the transformer entry points and of the shared `transform`
routine, one constructor per distinct `fmt.Errorf` site. -/
inductive TransformErr where
  | wrongModeForTransform
  | badInputExt
  | wrongModeForTransformToPath
  | outputPathRequired
  | absSourceRequired
  | parseError (e : ParseErr)
  | sameName
  | pragmaRequired
  | writeError (e : ShadowErr)
deriving DecidableEq, Repr

/-- One filesystem effect of the shared `transform` routine, in program
order: the backup attempt (`CreateBackupOf` on the output path), directory
creation, file creation/truncation, header write, content write. -/
inductive Effect where
  | backup (p : GoStr)
  | mkdirAll (d : GoStr)
  | create (p : GoStr)
  | writeHeader (p : GoStr)
  | writeContent (p : GoStr)
deriving DecidableEq, Repr

/-- Whether an effect is the backup attempt. -/
def Effect.isBackup : Effect → Bool
  | .backup _ => true
  | _ => false

/-- The `WriteContent` dispatch: pretty writing of the parsed blocks never
fails (I/O failures are not modelled); shadow writing is `writeShadow`. -/
def writeContentRes (mode : WriteMode) (doc : Document) : Except ShadowErr Unit :=
  match mode with
  | .ModePretty => .ok ()
  | .ModeShadow =>
    match writeShadow doc with
    | .ok _ => .ok ()
    | .error e => .error e

/-- Steps 1-4 of the shared `transform` routine: the stages before any
filesystem effect — the `AbsSource` requirement, the parse, the base-name
guard, and default/pragma-driven output-path determination. -/
def transformOutPath (opts : TransformOptions) (input : MarkdownSource)
    (forcedPath : GoStr) : Except TransformErr (Document × GoStr) :=
  if input.Metadata.AbsSource = [] then .error .absSourceRequired
  else
    match parseMarkdownDoc input.Metadata input.Nodes with
    | .error e => .error (.parseError e)
    | .ok doc =>
      if goBase input.Metadata.AbsSource = goBase doc.Pragmas.Output then
        .error .sameName
      else if forcedPath ≠ [] then .ok (doc, forcedPath)
      else if opts.RequirePragmaOutput then
        if doc.Pragmas.Output = [] then .error .pragmaRequired
        else .ok (doc, goJoin (goDir input.Metadata.AbsSource)
                             (CleanPragmaOutputExt opts doc.Pragmas))
      else .ok (doc, resolveTransformToAbsPath opts input.Metadata.AbsSource doc.Pragmas)

/-- The policy condition under which `transform` attempts a backup:
Pretty mode, `NoLitLuaOutputExt` set, `NoBackup` unset. -/
def backupCond (opts : TransformOptions) : Prop :=
  opts.WriterMode = .ModePretty ∧ opts.NoLitLuaOutputExt = true ∧ opts.NoBackup = false

instance (opts : TransformOptions) : Decidable (backupCond opts) := by
  unfold backupCond; infer_instance

/-- The shared `transform` routine, returning its result and the ordered
filesystem effect trace: after the path is determined, optionally attempt
the backup, create the output directory and file, write the header in
Pretty mode, then write the content. -/
def transform (opts : TransformOptions) (input : MarkdownSource)
    (forcedPath : GoStr) : Except TransformErr GoStr × List Effect :=
  match transformOutPath opts input forcedPath with
  | .error e => (.error e, [])
  | .ok (doc, out) =>
    let bk : List Effect := if backupCond opts then [.backup out] else []
    let pre := bk ++ [.mkdirAll (goDir out), .create out] ++
      (if opts.WriterMode = .ModePretty then [.writeHeader out] else [])
    match writeContentRes opts.WriterMode doc with
    | .error e => (.error (.writeError e), pre)
    | .ok _ => (.ok out, pre ++ [.writeContent out])

/-- The `Transform` Pretty-mode entry point: rejects shadow mode and
sources without the canonical input suffix, then runs `transform` with no
forced path. -/
def Transform (opts : TransformOptions) (input : MarkdownSource) :
    Except TransformErr GoStr × List Effect :=
  if opts.WriterMode = .ModeShadow then (.error .wrongModeForTransform, [])
  else if ¬goHasSuffix input.Metadata.AbsSource InputExt then (.error .badInputExt, [])
  else transform opts input []

/-- The `TransformToPath` shadow-mode entry point: requires shadow mode
and a non-empty output path, then runs `transform` with that forced path. -/
def TransformToPath (opts : TransformOptions) (input : MarkdownSource)
    (outputPath : GoStr) : Except TransformErr GoStr × List Effect :=
  if opts.WriterMode ≠ .ModeShadow then (.error .wrongModeForTransformToPath, [])
  else if outputPath = [] then (.error .outputPathRequired, [])
  else transform opts input outputPath

/-- The options the CLI entrypoint (`cmd/litlua/main.go`) constructs its
processor with: Pretty mode, every other field the Go zero value. -/
def cliDefaultOpts : TransformOptions := { WriterMode := .ModePretty }

/-! ## LSP server request dispatch (`internal/lsp/server`)

The repository contains several generations of the server.  Two are
relevant to cancellation bookkeeping:

* the generation with the cancellation map (`cancelMap sync.Map`): at the
  top of `Handle`, a request whose ID is in the map is skipped (and the ID
  deleted); the `$/cancelRequest` case stores the referenced ID;
* the latest generation (the one with the debounce map, the
  `.litlua.md` `didOpen` check and the validated `Options`): it has no
  cancellation state at all, and `$/cancelRequest` sits in the
  acknowledged-as-no-op method list.

Only the dispatch skeleton matters here: what each variant does with a
request is summarised as a `DispatchAction`; the per-method handler bodies and
the JSON decoding of non-cancel parameters are irrelevant to the claim and
are not modelled. -/

/-- Decoded request parameters, as far as dispatch needs them: the
`$/cancelRequest` case decodes `CancelParams` (the referenced ID). -/
inductive LspParams where
  | cancelParams (id : GoStr)
  | otherParams
deriving DecidableEq, Repr

/-- An inbound JSON-RPC request: its own ID (string form), method, params. -/
structure LspRequest where
  id : GoStr
  method : GoStr
  params : LspParams
deriving DecidableEq, Repr

/-- Dispatch outcome: skipped via the cancellation map; a stored
cancellation; acknowledged as a no-op with no forward; handled by a
dedicated method case; or forwarded raw to LuaLS by the default case. -/
inductive DispatchAction where
  | skipped
  | storedCancel
  | acknowledged
  | handled (m : GoStr)
  | forwarded (m : GoStr)
  | decodeFailed
deriving DecidableEq, Repr

/-- The methods with dedicated handler cases shared by both generations. -/
def dedicatedMethods : List GoStr :=
  [gs "initialize", gs "initialized", gs "shutdown", gs "exit",
   gs "textDocument/didOpen", gs "textDocument/didChange",
   gs "textDocument/didSave", gs "textDocument/definition",
   gs "textDocument/hover", gs "textDocument/completion"]

/-- The acknowledged-as-no-op method list of the latest generation
(`return nil, nil`, nothing forwarded); it contains `$/cancelRequest`. -/
def ignoredMethods005 : List GoStr :=
  [gs "$/cancelRequest", gs "textDocument/documentHighlight",
   gs "textDocument/documentSymbol", gs "textDocument/foldingRange",
   gs "textDocument/documentColor", gs "textDocument/codeLens",
   gs "textDocument/codeAction", gs "textDocument/semanticTokens/range",
   gs "textDocument/semanticTokens/full", gs "$/setTrace"]

/-- Dispatch of the latest server generation: no cancellation state, a
method switch only — dedicated cases, the no-op list (including
`$/cancelRequest`), and the forward-to-LuaLS default. -/
def dispatchLatest (req : LspRequest) : DispatchAction :=
  if req.method ∈ dedicatedMethods then .handled req.method
  else if req.method ∈ ignoredMethods005 then .acknowledged
  else .forwarded req.method

/-- Dispatch of the cancellation-map generation.  State: the set of
canceled request IDs (`cancelMap`), as a duplicate-free list.  A request
whose own ID is in the set is skipped and the ID removed; the
`$/cancelRequest` case stores the referenced ID; everything else
dispatches by method. -/
def dispatchCancelMap (cancelSet : List GoStr) (req : LspRequest) :
    List GoStr × DispatchAction :=
  if req.id ∈ cancelSet then (cancelSet.erase req.id, .skipped)
  else if req.method = gs "$/cancelRequest" then
    match req.params with
    | .cancelParams x =>
      ((if x ∈ cancelSet then cancelSet else x :: cancelSet), .storedCancel)
    | .otherParams => (cancelSet, .decodeFailed)
  else if req.method ∈ dedicatedMethods then (cancelSet, .handled req.method)
  else (cancelSet, .forwarded req.method)

/-! ## Specification-side predicates and concrete instances

These definitions formalise the vocabulary the checked properties are
stated in (ascending order, non-overlapping placements, collisions), and
fix the concrete documents used to instantiate or refute them. -/

/-- Blocks in ascending position order (both line numbers ascending). -/
def ascendingBlocks (bs : List CodeBlock) : Prop :=
  bs.Pairwise (fun a b =>
    a.Position.StartLine ≤ b.Position.StartLine ∧
    a.Position.EndLine ≤ b.Position.EndLine)

/-- Two blocks with non-overlapping line placements. -/
def disjRel (a b : CodeBlock) : Prop :=
  ∀ p ∈ placedList a, p ∉ placedList b

/-- Pairwise non-overlapping line placements. -/
def disjointBlocks (bs : List CodeBlock) : Prop := bs.Pairwise disjRel

/-- Every line any of the blocks places lies between 1 and `m`. -/
def placementsWithin (m : Int) (bs : List CodeBlock) : Prop :=
  ∀ b ∈ bs, ∀ p ∈ placedList b, 1 ≤ p ∧ p ≤ m

instance (m : Int) (bs : List CodeBlock) : Decidable (placementsWithin m bs) := by
  unfold placementsWithin
  infer_instance

instance (bs : List CodeBlock) : Decidable (ascendingBlocks bs) := by
  unfold ascendingBlocks
  infer_instance

instance (a b : CodeBlock) : Decidable (disjRel a b) := by
  unfold disjRel
  infer_instance

instance (bs : List CodeBlock) : Decidable (disjointBlocks bs) := by
  unfold disjointBlocks
  infer_instance

/-- Block `b` puts the code line `c` at 1-indexed output line `p`. -/
def lineAt (b : CodeBlock) (p : Int) (c : GoStr) : Prop :=
  ∃ k, ∃ h : k < numLines b, p = b.Position.StartLine + (k : Int) ∧
    (codeLines b).get ⟨k, h⟩ = c

/-- Output line `m` is a genuine collision point of the document: some
later block targets `m`, and some strictly earlier block writes a
non-empty code line there. -/
def CollisionWitness (doc : Document) (m : Int) : Prop :=
  ∃ l1 b l2, doc.Blocks = l1 ++ b :: l2 ∧ m ∈ placedList b ∧
    ∃ b' ∈ l1, ∃ c, c ≠ [] ∧ lineAt b' m c

/-- One trailing copy of `suffix` stripped if present — the wording of the
extension-policy description, written with `List.rdrop`. -/
def stripOneTrailing (s suffix : GoStr) : GoStr :=
  if goHasSuffix s suffix then s.rdrop suffix.length else s

/-- The two blocks of the positional-fidelity example:
`print(1)` at lines 10-11 and `print(2)` at lines 20-21. -/
def c1DocA : Document :=
  { Metadata := { AbsSource := gs "/w/a.litlua.md" }, Pragmas := {},
    Blocks :=
      [{ Code := gs "print(1)", Source := gs "/w/a.litlua.md",
         Position := { StartLine := 10, EndLine := 11 } },
       { Code := gs "print(2)", Source := gs "/w/a.litlua.md",
         Position := { StartLine := 20, EndLine := 21 } }] }

/-- A document whose single block is in (trivially) ascending order with
(trivially) non-overlapping placements, but whose two code lines overrun
the last block's `EndLine`: placement indexes slot 1 of a 1-slot buffer. -/
def c1DocCex : Document :=
  { Metadata := { AbsSource := gs "/w/a.litlua.md" }, Pragmas := {},
    Blocks :=
      [{ Code := gs "a\nb", Source := gs "/w/a.litlua.md",
         Position := { StartLine := 1, EndLine := 1 } }] }

/-- Two blocks whose placements both target output line 3. -/
def c7Doc : Document :=
  { Metadata := { AbsSource := gs "/w/a.litlua.md" }, Pragmas := {},
    Blocks :=
      [{ Code := gs "print(1)", Source := gs "/w/a.litlua.md",
         Position := { StartLine := 3, EndLine := 3 } },
       { Code := gs "print(2)", Source := gs "/w/a.litlua.md",
         Position := { StartLine := 3, EndLine := 3 } }] }

/-- A document with zero blocks (`doc.Blocks[len(doc.Blocks)-1]` panics). -/
def c9DocEmpty : Document :=
  { Metadata := { AbsSource := gs "/w/a.litlua.md" }, Pragmas := {}, Blocks := [] }

/-- A single block placing lines 5 and 6 while the buffer has 5 slots. -/
def c9DocOob : Document :=
  { Metadata := { AbsSource := gs "/w/a.litlua.md" }, Pragmas := {},
    Blocks :=
      [{ Code := gs "x\ny", Source := gs "/w/a.litlua.md",
         Position := { StartLine := 5, EndLine := 5 } }] }

/-- A well-formed document for instantiating the totality property. -/
def c9DocOk : Document :=
  { Metadata := { AbsSource := gs "/w/a.litlua.md" }, Pragmas := {},
    Blocks :=
      [{ Code := gs "a()", Source := gs "/w/a.litlua.md",
         Position := { StartLine := 2, EndLine := 3 } }] }

/-- Node sequence of a markdown file whose `<div>` HTML block (goldmark
subtype 6, not a comment) precedes a well-formed pragma comment. -/
def c3Nodes : List MdNode :=
  [.document,
   .htmlBlock 6 (gs "<div>\nhello\n</div>"),
   .htmlBlock 2 (gs "<!-- @pragma output: x -->"),
   .fencedCode (gs "lua") [gs "print(1)\n"] 6 6]

/-- A heading (`# Title`, an ordinary non-HTML node) for the pragma-cutoff
instantiation. -/
def c3NodesPrefix : List MdNode := [.document, .other]

/-- The pragma comment inserted after the cutoff in the instantiation. -/
def c3Comment : MdNode := .htmlBlock 2 (gs "<!-- @pragma output: x -->")

/-- The remaining nodes (one Lua block) of the instantiation. -/
def c3NodesRest : List MdNode := [.fencedCode (gs "lua") [gs "print(1)\n"] 4 4]

/-- Node sequence with an unparsable boolean pragma and no Lua block. -/
def c4Nodes : List MdNode :=
  [.document, .htmlBlock 2 (gs "<!-- @pragma debug: notabool -->")]

/-- Node sequence with a `python` block and an empty and a non-empty `lua`
block, for instantiating the language/emptiness filter. -/
def c4NodesOk : List MdNode :=
  [.document,
   .fencedCode (gs "python") [gs "print(1)\n"] 2 2,
   .fencedCode (gs "lua") [] 5 5,
   .fencedCode (gs "lua") [gs "x()\n"] 8 8]

/-- The shadow-transformer options the document service uses. -/
def c5ShadowOpts : TransformOptions :=
  { WriterMode := .ModeShadow, NoBackup := true }

/-- A source whose parse succeeds and has no output pragma. -/
def c5Src : MarkdownSource :=
  { Metadata := { AbsSource := gs "/home/u/config.litlua.md" },
    Nodes := [.document, .fencedCode (gs "lua") [gs "print(1)\n"] 1 2] }

/-- A forced shadow output path with the same base name as the input. -/
def c5Forced : GoStr := gs "/tmp/ws/config.litlua.md"

/-- A source whose pragma output has the input's base name. -/
def c5SrcGuard : MarkdownSource :=
  { Metadata := { AbsSource := gs "/home/u/config.litlua.md" },
    Nodes := [.document,
              .htmlBlock 2 (gs "<!-- @pragma output: config.litlua.md -->"),
              .fencedCode (gs "lua") [gs "print(1)\n"] 3 4] }

/-- A backup-eligible configuration: Pretty, `NoLitLuaOutputExt`,
backups enabled. -/
def c6Opts : TransformOptions :=
  { WriterMode := .ModePretty, NoLitLuaOutputExt := true }

/-- A plain source for the backup-policy instantiation. -/
def c6Src : MarkdownSource :=
  { Metadata := { AbsSource := gs "/a/b.litlua.md" },
    Nodes := [.document, .fencedCode (gs "lua") [gs "x()\n"] 3 3] }

/-- A `$/cancelRequest` notification referencing request ID 42. -/
def c8CancelReq : LspRequest :=
  { id := gs "0", method := gs "$/cancelRequest",
    params := .cancelParams (gs "42") }

/-- A later request whose own ID is the canceled 42. -/
def c8LaterReq : LspRequest :=
  { id := gs "42", method := gs "workspace/symbol", params := .otherParams }

/-- The pragma whose cleaned output is not a fixed point when the
transformer is constructed with `NoLitLuaOutputExt` (extension `.lua`). -/
def c10Pragma : Pragma := { Output := gs "a.litlua.litlua" }

/-- A transformer configuration with `NoLitLuaOutputExt` set. -/
def c10Opts : TransformOptions :=
  { WriterMode := .ModePretty, NoLitLuaOutputExt := true }

/-- Does entering this node set `hasWalkedOtherNodes` in `walkAst`?  The
source exempts the document root and every HTML block (of any subtype). -/
def setsFlagNode : MdNode → Bool
  | .htmlBlock _ _ => false
  | .document => false
  | _ => true

/-- Is this node an HTML-comment block (goldmark subtype 2) — the notion
the pragma-cutoff property is stated with? -/
def isCommentNode : MdNode → Bool
  | .htmlBlock btype _ => btype = 2
  | _ => false

/-- A fixed metadata value for concrete instantiations. -/
def mdA : MetaData := { AbsSource := gs "/a/b.litlua.md" }

/-- The walk state `c4NodesOk` produces (used to instantiate the
no-Lua-blocks property). -/
def c4WalkedState : WalkState :=
  { flag := true, prag := {},
    blocks := [{ Code := gs "x()\n", Source := gs "/a/b.litlua.md",
                 Position := { StartLine := 8, EndLine := 8 } }] }

/-- The parsed document of `c5SrcGuard` (used to instantiate the
name-collision guard). -/
def c5GuardDoc : Document :=
  { Metadata := { AbsSource := gs "/home/u/config.litlua.md" },
    Pragmas := { Output := gs "config.litlua.md" },
    Blocks := [{ Code := gs "print(1)\n", Source := gs "/home/u/config.litlua.md",
                 Position := { StartLine := 3, EndLine := 4 } }] }

/-! ## Helper lemmas -/

theorem goTrimSuffix_append (l s : GoStr) : goTrimSuffix (l ++ s) s = l := by
  unfold goTrimSuffix goHasSuffix
  rw [if_pos (List.isSuffixOf_iff_suffix.mpr (List.suffix_append l s))]
  have h1 : (l ++ s).length - s.length = l.length := by simp
  rw [h1, List.take_left]

theorem litlua_lua_split : gs ".litlua.lua" = gs ".litlua" ++ gs ".lua" := by decide

theorem stripOneTrailing_eq (s t : GoStr) : stripOneTrailing s t = goTrimSuffix s t := rfl

/-- Cleaning the unforced result again: both trims fire and give back the
stem. -/
theorem clean_unforced_reclean (t : GoStr) :
    goTrimSuffix (goTrimSuffix (t ++ gs ".litlua.lua") (gs ".lua")) (gs ".litlua") = t := by
  rw [litlua_lua_split, ← List.append_assoc, goTrimSuffix_append, goTrimSuffix_append]

/-- Cleaning any pragma whose `Force` is false takes the
trim-and-append path. -/
theorem clean_of_force_false (opts : TransformOptions) (q : Pragma)
    (hf : q.Force = false) :
    CleanPragmaOutputExt opts q =
      goTrimSuffix (goTrimSuffix q.Output (gs ".lua")) (gs ".litlua") ++ outputExtOf opts := by
  unfold CleanPragmaOutputExt
  rw [if_neg (by simp [hf])]

/-! ## Claim C2 -/

/-- Claim C2: with `NoLitLuaOutputExt` false, `CleanPragmaOutputExt`
returns a set, forced output verbatim; otherwise it strips one trailing
`.lua`, then one trailing `.litlua`, and appends `.litlua.lua` — so pragma
output `bar.lua` without force becomes `bar.litlua.lua`, and with force
stays `bar.lua`. -/
theorem c2_clean_pragma_output_ext (opts : TransformOptions)
    (hopts : opts.NoLitLuaOutputExt = false) (p : Pragma) :
    (p.Output ≠ [] → p.Force = true → CleanPragmaOutputExt opts p = p.Output) ∧
    (p.Output = [] ∨ p.Force = false →
      CleanPragmaOutputExt opts p =
        stripOneTrailing (stripOneTrailing p.Output (gs ".lua")) (gs ".litlua") ++
          gs ".litlua.lua") ∧
    CleanPragmaOutputExt opts { Output := gs "bar.lua" } = gs "bar.litlua.lua" ∧
    CleanPragmaOutputExt opts { Output := gs "bar.lua", Force := true } = gs "bar.lua" := by
  have hext : outputExtOf opts = gs ".litlua.lua" := by
    simp [outputExtOf, hopts]
  refine ⟨?_, ?_, ?_, ?_⟩
  · intro h1 h2
    unfold CleanPragmaOutputExt
    rw [if_pos ⟨h1, h2⟩]
  · intro h
    unfold CleanPragmaOutputExt
    rw [if_neg (by rcases h with h | h <;> simp [h]), hext, stripOneTrailing_eq,
        stripOneTrailing_eq]
  · unfold CleanPragmaOutputExt
    rw [if_neg (by simp), hext]
    decide
  · unfold CleanPragmaOutputExt
    rw [if_pos ⟨show gs "bar.lua" ≠ [] from by decide, rfl⟩]

/-- Witness for C2 at a concrete transformer and pragma. -/
theorem c2_clean_pragma_output_ext_witness :
    CleanPragmaOutputExt { WriterMode := WriteMode.ModePretty } { Output := gs "bar.lua" } =
      gs "bar.litlua.lua" :=
  (c2_clean_pragma_output_ext { WriterMode := WriteMode.ModePretty } rfl
    { Output := gs "bar.lua" }).2.2.1

/-! ## Claim C10 -/

/-- Counterexample to C10 as stated: with `NoLitLuaOutputExt` set (output
extension `.lua`), cleaning `a.litlua.litlua` gives `a.litlua.lua`, but
cleaning the result again gives `a.lua`. -/
theorem c10_not_idempotent_cex :
    CleanPragmaOutputExt c10Opts
        { c10Pragma with Output := CleanPragmaOutputExt c10Opts c10Pragma } ≠
      CleanPragmaOutputExt c10Opts c10Pragma := by decide

/-- Amended C10: `CleanPragmaOutputExt` is idempotent for transformers
constructed with `NoLitLuaOutputExt` false (the `.litlua.lua` extension),
in both the forced and unforced cases. -/
theorem c10_idempotent_default_ext (opts : TransformOptions)
    (hopts : opts.NoLitLuaOutputExt = false) (p : Pragma) :
    CleanPragmaOutputExt opts { p with Output := CleanPragmaOutputExt opts p } =
      CleanPragmaOutputExt opts p := by
  have hext : outputExtOf opts = gs ".litlua.lua" := by
    simp [outputExtOf, hopts]
  by_cases hf : p.Force = true
  · by_cases ho : p.Output = []
    · have h1 : CleanPragmaOutputExt opts p = gs ".litlua.lua" := by
        unfold CleanPragmaOutputExt
        rw [if_neg (by simp [ho]), ho, hext]
        decide
      rw [h1]
      unfold CleanPragmaOutputExt
      rw [if_pos ⟨show gs ".litlua.lua" ≠ [] from by decide, hf⟩]
    · have h1 : CleanPragmaOutputExt opts p = p.Output := by
        unfold CleanPragmaOutputExt
        rw [if_pos ⟨ho, hf⟩]
      rw [h1]
      unfold CleanPragmaOutputExt
      rw [if_pos ⟨ho, hf⟩]
  · have hf' : p.Force = false := by
      revert hf; cases p.Force <;> simp
    have h1 : CleanPragmaOutputExt opts p =
        goTrimSuffix (goTrimSuffix p.Output (gs ".lua")) (gs ".litlua") ++ gs ".litlua.lua" := by
      rw [clean_of_force_false opts p hf', hext]
    have h2 := clean_of_force_false opts
      { p with
          Output := goTrimSuffix (goTrimSuffix p.Output (gs ".lua")) (gs ".litlua") ++
            gs ".litlua.lua" }
      hf'
    rw [h1, h2, hext]
    exact congrArg (fun t => t ++ gs ".litlua.lua")
      (clean_unforced_reclean (goTrimSuffix (goTrimSuffix p.Output (gs ".lua")) (gs ".litlua")))

/-! ## Claim C8 -/

/-- Counterexample to C8 as stated: in the latest server generation,
`$/cancelRequest` is merely acknowledged (no cancellation set exists), and
a later request whose ID is the canceled `42` is forwarded to LuaLS, not
skipped. -/
theorem c8_cancel_not_tracked_cex :
    dispatchLatest c8CancelReq = DispatchAction.acknowledged ∧
    dispatchLatest c8LaterReq = DispatchAction.forwarded (gs "workspace/symbol") := by
  decide

/-- Amended C8: the latest server generation acknowledges
`$/cancelRequest` as a pure no-op and dispatches every later request by
method alone (it keeps no cancellation state), while the superseded
cancellation-map generation implements the record/skip/remove behaviour
the claim describes. -/
theorem c8_cancellation_semantics :
    (∀ req : LspRequest, req.method = gs "$/cancelRequest" →
      dispatchLatest req = DispatchAction.acknowledged) ∧
    (∀ req : LspRequest, req.method ∉ dedicatedMethods → req.method ∉ ignoredMethods005 →
      dispatchLatest req = DispatchAction.forwarded req.method) ∧
    (∀ (st : List GoStr) (x : GoStr) (req0 : LspRequest),
      req0.method = gs "$/cancelRequest" → req0.params = LspParams.cancelParams x →
      req0.id ∉ st →
      x ∈ (dispatchCancelMap st req0).1 ∧
      (dispatchCancelMap st req0).2 = DispatchAction.storedCancel ∧
      ∀ req : LspRequest, req.id = x →
        dispatchCancelMap (dispatchCancelMap st req0).1 req =
          ((dispatchCancelMap st req0).1.erase x, DispatchAction.skipped)) := by
  refine ⟨?_, ?_, ?_⟩
  · intro req h
    unfold dispatchLatest
    rw [if_neg (by rw [h]; decide), if_pos (by rw [h]; decide)]
  · intro req h1 h2
    unfold dispatchLatest
    rw [if_neg h1, if_neg h2]
  · intro st x req0 hm hp hid
    have hstep : dispatchCancelMap st req0 =
        ((if x ∈ st then st else x :: st), DispatchAction.storedCancel) := by
      unfold dispatchCancelMap
      rw [if_neg hid, if_pos hm, hp]
    have hmem : x ∈ (dispatchCancelMap st req0).1 := by
      rw [hstep]
      by_cases hx : x ∈ st
      · simp [hx]
      · simp [hx]
    refine ⟨hmem, by rw [hstep], ?_⟩
    intro req hr
    unfold dispatchCancelMap
    rw [if_pos (hr ▸ hmem), hr]

/-- Witness for the amended C8: canceling ID 42 in the cancellation-map
generation records it, and the later request with ID 42 is skipped with
the ID removed. -/
theorem c8_cancellation_semantics_witness :
    gs "42" ∈ (dispatchCancelMap [] c8CancelReq).1 ∧
    dispatchCancelMap (dispatchCancelMap [] c8CancelReq).1 c8LaterReq =
      ((dispatchCancelMap [] c8CancelReq).1.erase (gs "42"), DispatchAction.skipped) := by
  have h := c8_cancellation_semantics.2.2 [] (gs "42") c8CancelReq rfl rfl (by decide)
  exact ⟨h.1, h.2.2 c8LaterReq rfl⟩

/-! ## Claims C3 and C4: parser walk lemmas -/

/-- Unfolding one step of the walk. -/
theorem walkNodes_cons (md : MetaData) (st : WalkState) (n : MdNode) (ns : List MdNode) :
    walkNodes md st (n :: ns) =
      match walkStep md st n with
      | Except.error e => Except.error e
      | Except.ok st1 => walkNodes md st1 ns := rfl

/-- An HTML block visited while the flag is set is a complete no-op. -/
theorem walkStep_html_of_flag (md : MetaData) (st : WalkState) (btype : Nat)
    (text : GoStr) (hf : st.flag = true) :
    walkStep md st (MdNode.htmlBlock btype text) = .ok st := by
  unfold walkStep
  dsimp only
  rw [if_neg (by simp [hf])]

/-- Any step from a flag-set state succeeds and keeps the flag set. -/
theorem walkStep_flag_mono (md : MetaData) (st : WalkState) (n : MdNode)
    (hf : st.flag = true) :
    ∃ st1, walkStep md st n = .ok st1 ∧ st1.flag = true := by
  cases n with
  | document => exact ⟨{ st with flag := st.flag }, rfl, by simp [hf]⟩
  | htmlBlock btype text => exact ⟨st, walkStep_html_of_flag md st btype text hf, hf⟩
  | fencedCode lang segs s e =>
    unfold walkStep
    dsimp only
    by_cases hc : lang = gs "lua" ∧ segs ≠ []
    · exact ⟨_, by rw [if_pos hc], rfl⟩
    · exact ⟨_, by rw [if_neg hc], rfl⟩
  | other => exact ⟨_, rfl, rfl⟩

/-- A step on a node that sets the flag always succeeds with the flag set. -/
theorem walkStep_sets_flag (md : MetaData) (st : WalkState) (n : MdNode)
    (hn : setsFlagNode n = true) :
    ∃ st1, walkStep md st n = .ok st1 ∧ st1.flag = true := by
  cases n with
  | document => simp [setsFlagNode] at hn
  | htmlBlock btype text => simp [setsFlagNode] at hn
  | fencedCode lang segs s e =>
    unfold walkStep
    dsimp only
    by_cases hc : lang = gs "lua" ∧ segs ≠ []
    · exact ⟨_, by rw [if_pos hc], rfl⟩
    · exact ⟨_, by rw [if_neg hc], rfl⟩
  | other => exact ⟨_, rfl, rfl⟩

/-- Walking a concatenation is walking the first part, then the second. -/
theorem walkNodes_append (md : MetaData) (ns1 ns2 : List MdNode) :
    ∀ st : WalkState, walkNodes md st (ns1 ++ ns2) =
      match walkNodes md st ns1 with
      | Except.error e => Except.error e
      | Except.ok st1 => walkNodes md st1 ns2 := by
  induction ns1 with
  | nil => intro st; rfl
  | cons n ns ih =>
    intro st
    rw [List.cons_append, walkNodes_cons, walkNodes_cons]
    cases hstep : walkStep md st n with
    | error e => rfl
    | ok st1 => exact ih st1

/-- The flag never goes back to false along a successful walk. -/
theorem walkNodes_flag_mono (md : MetaData) :
    ∀ (ns : List MdNode) (st st1 : WalkState),
      walkNodes md st ns = .ok st1 → st.flag = true → st1.flag = true := by
  intro ns
  induction ns with
  | nil => intro st st1 hok hf; cases hok; exact hf
  | cons n ns ih =>
    intro st st1 hok hf
    rw [walkNodes_cons] at hok
    rcases walkStep_flag_mono md st n hf with ⟨st2, hst2, hflag2⟩
    rw [hst2] at hok
    exact ih st2 st1 hok hflag2

/-- If the walk of a node list succeeds and some node in it sets the flag,
the resulting state has the flag set. -/
theorem walkNodes_flag_of_member (md : MetaData) :
    ∀ (ns : List MdNode) (st st1 : WalkState),
      walkNodes md st ns = .ok st1 →
      (∃ n ∈ ns, setsFlagNode n = true) → st1.flag = true := by
  intro ns
  induction ns with
  | nil => intro st st1 _ hex; simp at hex
  | cons n ns ih =>
    intro st st1 hok hex
    rw [walkNodes_cons] at hok
    cases hstep : walkStep md st n with
    | error e => rw [hstep] at hok; cases hok
    | ok stm =>
      rw [hstep] at hok
      rcases hex with ⟨m, hm, hsets⟩
      rcases List.mem_cons.mp hm with rfl | hmem
      · rcases walkStep_sets_flag md st m hsets with ⟨st2, hst2, hflag⟩
        rw [hst2] at hstep
        cases hstep
        exact walkNodes_flag_mono md ns stm st1 hok hflag
      · exact ih stm st1 hok ⟨m, hmem, hsets⟩

/-! ## Claim C3 -/

/-- Counterexample to C3 as stated: a `<div>` HTML block (subtype 6) is a
node other than an HTML-comment block and other than the document root,
yet a well-formed pragma comment after it still takes effect (`Output`
becomes `x`; without the comment it would remain empty). -/
theorem c3_pragma_after_noncomment_cex :
    c3Nodes =
      [MdNode.document, MdNode.htmlBlock 6 (gs "<div>\nhello\n</div>")] ++
        MdNode.htmlBlock 2 (gs "<!-- @pragma output: x -->") ::
          [MdNode.fencedCode (gs "lua") [gs "print(1)\n"] 6 6] ∧
    isCommentNode (MdNode.htmlBlock 6 (gs "<div>\nhello\n</div>")) = false ∧
    MdNode.htmlBlock 6 (gs "<div>\nhello\n</div>") ≠ MdNode.document ∧
    (parseMarkdownDoc mdA c3Nodes).toOption.map (fun d => d.Pragmas.Output) =
      some (gs "x") ∧
    (parseMarkdownDoc mdA
        ([MdNode.document, MdNode.htmlBlock 6 (gs "<div>\nhello\n</div>")] ++
          [MdNode.fencedCode (gs "lua") [gs "print(1)\n"] 6 6])).toOption.map
        (fun d => d.Pragmas.Output) = some [] := by
  refine ⟨rfl, rfl, by decide, by decide, by decide⟩

/-- Amended C3: pragma extraction applies only to subtype-2 HTML comment
blocks visited before any node that is neither an HTML block (of any
subtype) nor the document root; once such a node has been entered, any
later HTML block — in particular any well-formed pragma comment — is a
complete no-op, so the parse result is the same as without it. -/
theorem c3_pragma_cutoff (md : MetaData) (ns1 ns2 : List MdNode)
    (btype : Nat) (text : GoStr)
    (hcut : ∃ n ∈ ns1, setsFlagNode n = true) :
    parseMarkdownDoc md (ns1 ++ MdNode.htmlBlock btype text :: ns2) =
      parseMarkdownDoc md (ns1 ++ ns2) := by
  unfold parseMarkdownDoc
  rw [walkNodes_append, walkNodes_append]
  cases h1 : walkNodes md initWalkState ns1 with
  | error e => rfl
  | ok st1 =>
    have hflag : st1.flag = true := walkNodes_flag_of_member md ns1 _ st1 h1 hcut
    dsimp only
    rw [walkNodes_cons, walkStep_html_of_flag md st1 btype text hflag]

/-- Witness for the amended C3: with a heading before it, the pragma
comment does not change the parse result. -/
theorem c3_pragma_cutoff_witness :
    parseMarkdownDoc mdA
        (c3NodesPrefix ++ MdNode.htmlBlock 2 (gs "<!-- @pragma output: x -->") :: c3NodesRest) =
      parseMarkdownDoc mdA (c3NodesPrefix ++ c3NodesRest) :=
  c3_pragma_cutoff mdA c3NodesPrefix c3NodesRest 2 (gs "<!-- @pragma output: x -->")
    ⟨MdNode.other, by decide, rfl⟩

/-! ## Claim C4 -/

/-- One walk step appends exactly the code block the node contributes. -/
theorem walkStep_blocks (md : MetaData) (st stm : WalkState) (n : MdNode)
    (h : walkStep md st n = .ok stm) :
    stm.blocks = st.blocks ++ (extractCode md n).toList := by
  cases n with
  | document =>
    cases h
    simp [extractCode]
  | htmlBlock btype text =>
    unfold walkStep at h
    dsimp only at h
    by_cases hc : ¬st.flag = true ∧ btype = 2
    · rw [if_pos hc] at h
      cases hx : extractPragmaFromLine st.prag text with
      | error e => rw [hx] at h; cases h
      | ok p =>
        rw [hx] at h
        cases h
        simp [extractCode]
    · rw [if_neg hc] at h
      cases h
      simp [extractCode]
  | fencedCode lang segs s e =>
    unfold walkStep at h
    dsimp only at h
    by_cases hc : lang = gs "lua" ∧ segs ≠ []
    · rw [if_pos hc] at h
      cases h
      simp [extractCode, hc.1, hc.2]
    · rw [if_neg hc] at h
      cases h
      simp only [extractCode]
      rw [if_neg (by simpa using hc)]
      simp
  | other =>
    cases h
    simp [extractCode]

/-- A successful walk collects exactly the qualifying fenced blocks, in
order, appended to whatever was already collected. -/
theorem walkNodes_blocks (md : MetaData) :
    ∀ (ns : List MdNode) (st st1 : WalkState),
      walkNodes md st ns = .ok st1 →
      st1.blocks = st.blocks ++ ns.filterMap (extractCode md) := by
  intro ns
  induction ns with
  | nil => intro st st1 h; cases h; simp
  | cons n ns ih =>
    intro st st1 h
    rw [walkNodes_cons] at h
    cases hstep : walkStep md st n with
    | error e => rw [hstep] at h; cases h
    | ok stm =>
      rw [hstep] at h
      rw [ih stm st1 h, walkStep_blocks md st stm n hstep, List.filterMap_cons]
      cases hx : extractCode md n <;> simp

/-- Counterexample to C4 as stated: a document with an unparsable boolean
pragma and no Lua block fails with the pragma error, not with the
no-Lua-blocks error, although it contains no qualifying block. -/
theorem c4_no_lua_error_cex :
    c4Nodes.filterMap (extractCode mdA) = [] ∧
    parseMarkdownDoc mdA c4Nodes = .error (ParseErr.pragmaErr (gs "debug")) ∧
    parseMarkdownDoc mdA c4Nodes ≠ .error ParseErr.noLuaBlocks := by
  refine ⟨by decide, by decide, by decide⟩

/-- Amended C4: provided the walk itself raises no pragma error,
`ParseMarkdownDoc` returns the no-Lua-blocks error exactly when the input
has no fenced block tagged `lua` with at least one content line, and on
success the collected blocks are exactly the qualifying ones. -/
theorem c4_no_lua_blocks_iff (md : MetaData) (ns : List MdNode) (st : WalkState)
    (hok : walkNodes md initWalkState ns = .ok st) :
    (parseMarkdownDoc md ns = .error ParseErr.noLuaBlocks ↔
      ns.filterMap (extractCode md) = []) ∧
    (∀ d, parseMarkdownDoc md ns = .ok d → d.Blocks = ns.filterMap (extractCode md)) := by
  have hblocks : st.blocks = ns.filterMap (extractCode md) := by
    have h := walkNodes_blocks md ns initWalkState st hok
    simpa [initWalkState] using h
  unfold parseMarkdownDoc
  rw [hok]
  dsimp only
  constructor
  · by_cases hb : st.blocks = []
    · rw [if_pos hb]
      simp [← hblocks, hb]
    · rw [if_neg hb]
      constructor
      · intro h; cases h
      · intro h; rw [← hblocks] at h; exact absurd h hb
  · intro d hd
    by_cases hb : st.blocks = []
    · rw [if_pos hb] at hd; cases hd
    · rw [if_neg hb] at hd
      cases hd
      exact hblocks

/-- Witness for the amended C4 at a document with a `python` block, an
empty `lua` block and one qualifying `lua` block. -/
theorem c4_no_lua_blocks_iff_witness :
    (parseMarkdownDoc mdA c4NodesOk = .error ParseErr.noLuaBlocks ↔
      c4NodesOk.filterMap (extractCode mdA) = []) ∧
    (∀ d, parseMarkdownDoc mdA c4NodesOk = .ok d →
      d.Blocks = c4NodesOk.filterMap (extractCode mdA)) :=
  c4_no_lua_blocks_iff mdA c4NodesOk c4WalkedState (by decide)

/-! ## Claim C5 -/

/-- The pre-effect stage returns the name-collision error exactly when the
base name of the parsed pragma output equals the input's base name. -/
theorem transformOutPath_sameName_iff (opts : TransformOptions)
    (input : MarkdownSource) (forced : GoStr)
    (hsrc : ¬input.Metadata.AbsSource = []) (d : Document)
    (hparse : parseMarkdownDoc input.Metadata input.Nodes = .ok d) :
    (transformOutPath opts input forced = .error TransformErr.sameName ↔
      goBase input.Metadata.AbsSource = goBase d.Pragmas.Output) := by
  unfold transformOutPath
  rw [if_neg hsrc, hparse]
  dsimp only
  by_cases hb : goBase input.Metadata.AbsSource = goBase d.Pragmas.Output
  · rw [if_pos hb]
    simp [hb]
  · rw [if_neg hb]
    constructor
    · intro h
      exfalso
      split_ifs at h <;> simp_all
    · intro h
      exact absurd h hb

/-- The shared routine returns the name-collision error exactly when the
pre-effect stage does. -/
theorem transform_fst_sameName_iff (opts : TransformOptions)
    (input : MarkdownSource) (forced : GoStr) :
    ((transform opts input forced).1 = .error TransformErr.sameName ↔
      transformOutPath opts input forced = .error TransformErr.sameName) := by
  unfold transform
  cases ho : transformOutPath opts input forced with
  | error e => simp
  | ok pr =>
    rcases pr with ⟨d, out⟩
    dsimp only
    cases hw : writeContentRes opts.WriterMode d with
    | error e => simp
    | ok u => simp

/-- When the pre-effect stage fails, nothing was written: the effect trace
is empty. -/
theorem transform_effects_of_outPath_error (opts : TransformOptions)
    (input : MarkdownSource) (forced : GoStr) (e : TransformErr)
    (he : transformOutPath opts input forced = .error e) :
    (transform opts input forced).2 = [] := by
  unfold transform
  rw [he]

/-- Counterexample to C5 as stated: a shadow transform to a forced output
path whose base name equals the input's base name succeeds — the file is
created — because the guard compares the pragma output's base name, not
the output file's. -/
theorem c5_same_base_name_accepted_cex :
    (TransformToPath c5ShadowOpts c5Src c5Forced).1 = .ok c5Forced ∧
    goBase c5Forced = goBase c5Src.Metadata.AbsSource ∧
    Effect.create c5Forced ∈ (TransformToPath c5ShadowOpts c5Src c5Forced).2 := by
  refine ⟨by decide, by decide, by decide⟩

/-- Amended C5: for every source with non-empty `AbsSource` whose parse
succeeds, the shared transform routine fails with the name-collision error
— before any filesystem effect — exactly when the base name of the parsed
document's `output` pragma equals the input file's base name. -/
theorem c5_same_name_guard (opts : TransformOptions) (input : MarkdownSource)
    (forced : GoStr) (hsrc : ¬input.Metadata.AbsSource = []) (d : Document)
    (hparse : parseMarkdownDoc input.Metadata input.Nodes = .ok d) :
    ((transform opts input forced).1 = .error TransformErr.sameName ↔
      goBase input.Metadata.AbsSource = goBase d.Pragmas.Output) ∧
    (goBase input.Metadata.AbsSource = goBase d.Pragmas.Output →
      (transform opts input forced).2 = []) := by
  constructor
  · rw [transform_fst_sameName_iff]
    exact transformOutPath_sameName_iff opts input forced hsrc d hparse
  · intro hb
    exact transform_effects_of_outPath_error opts input forced TransformErr.sameName
      ((transformOutPath_sameName_iff opts input forced hsrc d hparse).mpr hb)

/-- Witness for the amended C5: a pragma `output: config.litlua.md` on
source `config.litlua.md` triggers the guard with no effects. -/
theorem c5_same_name_guard_witness :
    ((transform cliDefaultOpts c5SrcGuard []).1 = .error TransformErr.sameName ↔
      goBase c5SrcGuard.Metadata.AbsSource = goBase c5GuardDoc.Pragmas.Output) ∧
    (goBase c5SrcGuard.Metadata.AbsSource = goBase c5GuardDoc.Pragmas.Output →
      (transform cliDefaultOpts c5SrcGuard []).2 = []) :=
  c5_same_name_guard cliDefaultOpts c5SrcGuard [] (by decide) c5GuardDoc (by decide)


/-! ## Claim C6 -/

/-- Characterization of the shared routine once the pre-effect stage has
produced the document and output path. -/
theorem transform_char_ok (opts : TransformOptions) (input : MarkdownSource)
    (forced : GoStr) (d : Document) (out : GoStr)
    (ho : transformOutPath opts input forced = .ok (d, out)) :
    transform opts input forced =
      (match writeContentRes opts.WriterMode d with
       | Except.error e =>
         (Except.error (TransformErr.writeError e),
          (if backupCond opts then [Effect.backup out] else []) ++
            [Effect.mkdirAll (goDir out), Effect.create out] ++
            (if opts.WriterMode = WriteMode.ModePretty then [Effect.writeHeader out] else []))
       | Except.ok _ =>
         (Except.ok out,
          (if backupCond opts then [Effect.backup out] else []) ++
            [Effect.mkdirAll (goDir out), Effect.create out] ++
            (if opts.WriterMode = WriteMode.ModePretty then [Effect.writeHeader out] else []) ++
            [Effect.writeContent out])) := by
  unfold transform
  rw [ho]

/-- Claim C6: a backup is attempted exactly under the policy
`Pretty ∧ NoLitLuaOutputExt ∧ ¬NoBackup`: any backup effect in the trace
implies the policy; under the policy every completed transform attempts
the backup on the output path; outside the policy the trace holds no
backup and touches only the output path and its directory; a failed
pre-effect stage leaves the trace empty; and the CLI entrypoint's default
Pretty-mode options do not satisfy the policy. -/
theorem c6_backup_policy (opts : TransformOptions) (input : MarkdownSource)
    (forced : GoStr) :
    ((∃ p, Effect.backup p ∈ (transform opts input forced).2) → backupCond opts) ∧
    (backupCond opts → ∀ out, (transform opts input forced).1 = .ok out →
      Effect.backup out ∈ (transform opts input forced).2) ∧
    (¬backupCond opts → ∀ d out, transformOutPath opts input forced = .ok (d, out) →
      ∀ e ∈ (transform opts input forced).2,
        e.isBackup = false ∧
        (e = Effect.mkdirAll (goDir out) ∨ e = Effect.create out ∨
         e = Effect.writeHeader out ∨ e = Effect.writeContent out)) ∧
    (∀ e, transformOutPath opts input forced = .error e →
      (transform opts input forced).2 = []) ∧
    ¬backupCond cliDefaultOpts := by
  refine ⟨?_, ?_, ?_, ?_, by decide⟩
  · rintro ⟨p, hp⟩
    by_cases hbc : backupCond opts
    · exact hbc
    · exfalso
      cases ho : transformOutPath opts input forced with
      | error e =>
        rw [transform_effects_of_outPath_error opts input forced e ho] at hp
        simp at hp
      | ok pr =>
        rcases pr with ⟨d, out⟩
        rw [transform_char_ok opts input forced d out ho] at hp
        cases hw : writeContentRes opts.WriterMode d <;> simp [hbc, hw] at hp
  · intro hbc out hok
    cases ho : transformOutPath opts input forced with
    | error e =>
      rw [show transform opts input forced = (.error e, []) from by
            unfold transform; rw [ho]] at hok
      cases hok
    | ok pr =>
      rcases pr with ⟨d, out1⟩
      rw [transform_char_ok opts input forced d out1 ho] at hok ⊢
      cases hw : writeContentRes opts.WriterMode d with
      | error e =>
        try rw [hw] at hok
        dsimp only at hok
        cases hok
      | ok u =>
        try rw [hw] at hok
        try rw [hw]
        dsimp only at hok ⊢
        cases hok
        simp [hbc]
  · intro hbc d out ho e he
    rw [transform_char_ok opts input forced d out ho] at he
    cases hw : writeContentRes opts.WriterMode d with
    | error e2 =>
      try rw [hw] at he
      by_cases hpm : opts.WriterMode = WriteMode.ModePretty
      · simp [hbc, hpm] at he
        rcases he with h | h | h <;> subst h <;> simp [Effect.isBackup]
      · simp [hbc, hpm] at he
        rcases he with h | h <;> subst h <;> simp [Effect.isBackup]
    | ok u =>
      try rw [hw] at he
      by_cases hpm : opts.WriterMode = WriteMode.ModePretty
      · simp [hbc, hpm] at he
        rcases he with h | h | h | h <;> subst h <;> simp [Effect.isBackup]
      · simp [hbc, hpm] at he
        rcases he with h | h | h <;> subst h <;> simp [Effect.isBackup]
  · intro e he
    exact transform_effects_of_outPath_error opts input forced e he

/-- Witness for C6: in the backup-eligible configuration the transform of
a plain source attempts the backup of the resolved output `/a/b.lua`. -/
theorem c6_backup_policy_witness :
    Effect.backup (gs "/a/b.lua") ∈ (transform c6Opts c6Src []).2 :=
  (c6_backup_policy c6Opts c6Src []).2.1 (by decide) (gs "/a/b.lua") (by decide)

/-! ## Claims C1, C7, C9: shadow-writer lemmas -/

theorem codeLines_ne_nil (b : CodeBlock) : codeLines b ≠ [] := by
  unfold codeLines List.splitOn
  exact List.splitOnP_ne_nil _ _

theorem numLines_pos (b : CodeBlock) : 0 < numLines b :=
  List.length_pos.mpr (codeLines_ne_nil b)

theorem mem_placedList (b : CodeBlock) (p : Int) :
    p ∈ placedList b ↔ ∃ k, k < numLines b ∧ p = b.Position.StartLine + (k : Int) := by
  constructor
  · intro h
    rcases List.mem_map.mp h with ⟨k, hk, hfk⟩
    exact ⟨k, List.mem_range.mp hk, hfk.symm⟩
  · rintro ⟨k, hk, hp⟩
    exact List.mem_map.mpr ⟨k, List.mem_range.mpr hk, hp.symm⟩

/-- Successful placement: the preconditions hold, the result keeps the
length, the window receives the lines, everything else is untouched. -/
theorem placeLines_ok_of (L : List GoStr) :
    ∀ (lines : List GoStr) (idx : Int),
      0 ≤ idx →
      (∀ k, k < L.length → idx.toNat + k < lines.length) →
      (∀ k, k < L.length → lines[idx.toNat + k]? = some []) →
      ∃ lines1, placeLines lines idx L = .ok lines1 ∧ lines1.length = lines.length ∧
        ∀ j : Nat, lines1[j]? =
          if idx.toNat ≤ j ∧ j < idx.toNat + L.length then L[j - idx.toNat]?
          else lines[j]? := by
  induction L with
  | nil =>
    intro lines idx _ _ _
    refine ⟨lines, rfl, rfl, ?_⟩
    intro j
    rw [if_neg (by simp only [List.length_nil]; omega)]
  | cons l rest ih =>
    intro lines idx hidx hin hemp
    have hb0 : idx.toNat < lines.length := by
      have := hin 0 (by simp)
      omega
    have he0 : lines[idx.toNat]? = some [] := by
      have := hemp 0 (by simp)
      simpa using this
    have heq : lines[idx.toNat] = [] := by
      have h := List.getElem?_eq_getElem hb0
      rw [h] at he0
      exact Option.some.inj he0
    have hsucc : (idx + 1).toNat = idx.toNat + 1 := by omega
    have hstep : placeLines lines idx (l :: rest) =
        placeLines (lines.set idx.toNat l) (idx + 1) rest := by
      rw [placeLines]
      rw [dif_pos ⟨hidx, hb0⟩,
          if_neg (by simp only [List.get_eq_getElem]; simp [heq])]
    rcases ih (lines.set idx.toNat l) (idx + 1) (by omega)
        (by
          intro k hk
          rw [List.length_set, hsucc]
          have := hin (k + 1) (by simpa using hk)
          omega)
        (by
          intro k hk
          rw [hsucc, List.getElem?_set]
          rw [if_neg (by omega)]
          have h4 := hemp (k + 1) (by simpa using hk)
          have h3 : idx.toNat + 1 + k = idx.toNat + (k + 1) := by omega
          rw [h3]
          exact h4) with ⟨lines1, hpl, hlen, hJ⟩
    refine ⟨lines1, by rw [hstep]; exact hpl, by rw [hlen, List.length_set], ?_⟩
    intro j
    rw [hJ j, hsucc]
    by_cases h1 : j = idx.toNat
    · subst h1
      rw [if_neg (by omega), if_pos (by simp)]
      rw [List.getElem?_set, if_pos rfl, if_pos hb0]
      simp
    · by_cases h2 : idx.toNat + 1 ≤ j ∧ j < idx.toNat + 1 + rest.length
      · rw [if_pos h2, if_pos (by simp only [List.length_cons]; omega)]
        have h5 : j - idx.toNat = (j - (idx.toNat + 1)) + 1 := by omega
        rw [h5, List.getElem?_cons_succ]
      · rw [if_neg h2, if_neg (by simp only [List.length_cons]; omega),
            List.getElem?_set, if_neg (by omega)]

/-- Destructuring a successful placement step. -/
theorem placeLines_cons_ok (lines : List GoStr) (idx : Int) (l : GoStr)
    (rest : List GoStr) (lines1 : List GoStr)
    (h : placeLines lines idx (l :: rest) = .ok lines1) :
    0 ≤ idx ∧ idx.toNat < lines.length ∧ lines[idx.toNat]? = some [] ∧
      placeLines (lines.set idx.toNat l) (idx + 1) rest = .ok lines1 := by
  rw [placeLines] at h
  by_cases hd : 0 ≤ idx ∧ idx.toNat < lines.length
  · rw [dif_pos hd] at h
    by_cases hc : lines.get ⟨idx.toNat, hd.2⟩ ≠ []
    · rw [if_pos hc] at h
      cases h
    · rw [if_neg hc] at h
      push_neg at hc
      simp only [List.get_eq_getElem] at hc
      refine ⟨hd.1, hd.2, ?_, h⟩
      rw [List.getElem?_eq_getElem hd.2, hc]
  · rw [dif_neg hd] at h
    cases h

/-- A successful placement never changes the buffer length. -/
theorem placeLines_ok_length (L : List GoStr) :
    ∀ (lines : List GoStr) (idx : Int) (lines1 : List GoStr),
      placeLines lines idx L = .ok lines1 → lines1.length = lines.length := by
  induction L with
  | nil =>
    intro lines idx lines1 h
    cases h
    rfl
  | cons l rest ih =>
    intro lines idx lines1 h
    rcases placeLines_cons_ok lines idx l rest lines1 h with ⟨_, _, _, hrec⟩
    rw [ih _ _ _ hrec, List.length_set]

/-- Cells strictly below the window are untouched. -/
theorem placeLines_ok_lower (L : List GoStr) :
    ∀ (lines : List GoStr) (idx : Int) (lines1 : List GoStr),
      placeLines lines idx L = .ok lines1 →
      ∀ j : Nat, (j : Int) < idx → lines1[j]? = lines[j]? := by
  induction L with
  | nil =>
    intro lines idx lines1 h j _
    cases h
    rfl
  | cons l rest ih =>
    intro lines idx lines1 h j hj
    rcases placeLines_cons_ok lines idx l rest lines1 h with ⟨h0, _, _, hrec⟩
    rw [ih _ _ _ hrec j (by omega), List.getElem?_set, if_neg (by omega)]

/-- A successful placement wrote every line of the block at its slot. -/
theorem placeLines_ok_writes (L : List GoStr) :
    ∀ (lines : List GoStr) (idx : Int) (lines1 : List GoStr),
      placeLines lines idx L = .ok lines1 →
      ∀ k, k < L.length →
        0 ≤ idx ∧ idx.toNat + k < lines.length ∧ lines1[idx.toNat + k]? = L[k]? := by
  induction L with
  | nil =>
    intro lines idx lines1 h k hk
    simp at hk
  | cons l rest ih =>
    intro lines idx lines1 h k hk
    rcases placeLines_cons_ok lines idx l rest lines1 h with ⟨h0, hb, hcell, hrec⟩
    have hsucc : (idx + 1).toNat = idx.toNat + 1 := by omega
    cases k with
    | zero =>
      refine ⟨h0, by omega, ?_⟩
      simp only [Nat.add_zero]
      rw [placeLines_ok_lower rest _ _ _ hrec idx.toNat (by omega)]
      rw [List.getElem?_set, if_pos rfl, if_pos hb]
      simp
    | succ k2 =>
      rcases ih _ _ _ hrec k2 (by simpa using hk) with ⟨_, hb2, hw2⟩
      rw [List.length_set, hsucc] at hb2
      rw [hsucc] at hw2
      have h3 : idx.toNat + 1 + k2 = idx.toNat + (k2 + 1) := by omega
      rw [h3] at hb2 hw2
      exact ⟨h0, by omega, by rw [hw2]; simp⟩

/-- Every slot of the window was empty when the placement began. -/
theorem placeLines_ok_entry (L : List GoStr) :
    ∀ (lines : List GoStr) (idx : Int) (lines1 : List GoStr),
      placeLines lines idx L = .ok lines1 →
      ∀ k, k < L.length → lines[idx.toNat + k]? = some [] := by
  induction L with
  | nil =>
    intro lines idx lines1 h k hk
    simp at hk
  | cons l rest ih =>
    intro lines idx lines1 h k hk
    rcases placeLines_cons_ok lines idx l rest lines1 h with ⟨h0, hb, hcell, hrec⟩
    have hsucc : (idx + 1).toNat = idx.toNat + 1 := by omega
    cases k with
    | zero => simpa using hcell
    | succ k2 =>
      have h4 := ih _ _ _ hrec k2 (by simpa using hk)
      rw [hsucc, List.getElem?_set, if_neg (by omega)] at h4
      have h3 : idx.toNat + 1 + k2 = idx.toNat + (k2 + 1) := by omega
      rw [h3] at h4
      exact h4

/-- A non-empty cell survives any further successful placement unchanged. -/
theorem placeLines_ok_keep (L : List GoStr) :
    ∀ (lines : List GoStr) (idx : Int) (lines1 : List GoStr),
      placeLines lines idx L = .ok lines1 →
      ∀ (j : Nat) (c : GoStr), lines[j]? = some c → c ≠ [] → lines1[j]? = some c := by
  induction L with
  | nil =>
    intro lines idx lines1 h j c hc _
    cases h
    exact hc
  | cons l rest ih =>
    intro lines idx lines1 h j c hc hne
    rcases placeLines_cons_ok lines idx l rest lines1 h with ⟨h0, hb, hcell, hrec⟩
    by_cases hj : j = idx.toNat
    · subst hj
      rw [hc] at hcell
      cases Option.some.inj hcell
      exact absurd rfl hne
    · refine ih _ _ _ hrec j c ?_ hne
      rw [List.getElem?_set, if_neg (by omega)]
      exact hc

/-- Characterization of a collision: the reported number is one past the
colliding slot, a slot of the block's own window whose cell was already
non-empty when the block's placement began. -/
theorem placeLines_collision (L : List GoStr) :
    ∀ (lines : List GoStr) (idx : Int) (m : Int),
      placeLines lines idx L = .error (.collision m) →
      ∃ k, k < L.length ∧ 0 ≤ idx + k ∧ (idx + k).toNat < lines.length ∧
        m = idx + k + 1 ∧ ∃ c, lines[(idx + k).toNat]? = some c ∧ c ≠ [] := by
  induction L with
  | nil =>
    intro lines idx m h
    cases h
  | cons l rest ih =>
    intro lines idx m h
    rw [placeLines] at h
    by_cases hd : 0 ≤ idx ∧ idx.toNat < lines.length
    · rw [dif_pos hd] at h
      by_cases hc : lines.get ⟨idx.toNat, hd.2⟩ ≠ []
      · rw [if_pos hc] at h
        have hm : m = idx + 1 := (ShadowErr.collision.inj (Except.error.inj h)).symm
        refine ⟨0, by simp, by omega, ?_, by omega, ?_⟩
        · have h5 : idx + ((0 : Nat) : Int) = idx := by omega
          rw [h5]
          exact hd.2
        · refine ⟨lines.get ⟨idx.toNat, hd.2⟩, ?_, hc⟩
          have h6 : idx + ((0 : Nat) : Int) = idx := by omega
          rw [h6, List.getElem?_eq_getElem hd.2]
          exact congrArg some (List.get_eq_getElem lines ⟨idx.toNat, hd.2⟩).symm
      · rw [if_neg hc] at h
        rcases ih _ _ _ h with ⟨k2, hk2, h02, hb2, hm2, c, hcell2, hne2⟩
        have h7 : idx + 1 + (k2 : Int) = idx + ((k2 + 1 : Nat) : Int) := by omega
        rw [h7] at h02 hb2 hm2
        refine ⟨k2 + 1, by simpa using hk2, h02, ?_, by omega, ⟨c, ?_, hne2⟩⟩
        · rw [List.length_set] at hb2
          exact hb2
        · rw [List.getElem?_set, if_neg (by omega)] at hcell2
          rw [h7] at hcell2
          exact hcell2
    · rw [dif_neg hd] at h
      cases h

/-- Each cell after a successful placement is either untouched or holds
the corresponding line of the placed block. -/
theorem placeLines_ok_cells (L : List GoStr) :
    ∀ (lines : List GoStr) (idx : Int) (lines1 : List GoStr),
      placeLines lines idx L = .ok lines1 →
      ∀ j : Nat, lines1[j]? = lines[j]? ∨
        ∃ k, k < L.length ∧ 0 ≤ idx ∧ j = idx.toNat + k ∧ lines1[j]? = L[k]? := by
  induction L with
  | nil =>
    intro lines idx lines1 h j
    cases h
    exact Or.inl rfl
  | cons l rest ih =>
    intro lines idx lines1 h j
    rcases placeLines_cons_ok lines idx l rest lines1 h with ⟨h0, hb, hcell, hrec⟩
    have hsucc : (idx + 1).toNat = idx.toNat + 1 := by omega
    rcases ih _ _ _ hrec j with h1 | ⟨k2, hk2, _, hj2, hw2⟩
    · rw [List.getElem?_set] at h1
      by_cases hj : idx.toNat = j
      · subst hj
        rw [if_pos rfl, if_pos hb] at h1
        exact Or.inr ⟨0, by simp, h0, by omega, by rw [h1]; simp⟩
      · rw [if_neg hj] at h1
        exact Or.inl h1
    · rw [hsucc] at hj2
      refine Or.inr ⟨k2 + 1, by simpa using hk2, h0, by omega, ?_⟩
      rw [hw2]
      simp

/-- With every slot of the window in bounds, placement never panics. -/
theorem placeLines_not_panic (L : List GoStr) :
    ∀ (lines : List GoStr) (idx : Int),
      0 ≤ idx →
      (∀ k, k < L.length → idx.toNat + k < lines.length) →
      placeLines lines idx L ≠ .error .panic := by
  induction L with
  | nil =>
    intro lines idx _ _ h
    cases h
  | cons l rest ih =>
    intro lines idx hidx hin
    have hb0 : idx.toNat < lines.length := by
      have := hin 0 (by simp)
      omega
    rw [placeLines, dif_pos ⟨hidx, hb0⟩]
    by_cases hc : lines.get ⟨idx.toNat, hb0⟩ ≠ []
    · rw [if_pos hc]
      simp
    · rw [if_neg hc]
      refine ih _ (idx + 1) (by omega) ?_
      intro k hk
      rw [List.length_set]
      have h2 := hin (k + 1) (by simpa using hk)
      omega

/-- Folding placement over a concatenation of block lists. -/
theorem placeBlocks_append (xs ys : List CodeBlock) :
    ∀ lines : List GoStr, placeBlocks lines (xs ++ ys) =
      match placeBlocks lines xs with
      | Except.error e => Except.error e
      | Except.ok mid => placeBlocks mid ys := by
  induction xs with
  | nil => intro lines; rfl
  | cons b bs ih =>
    intro lines
    have hcons : ∀ zs : List CodeBlock, placeBlocks lines (b :: zs) =
        (match placeBlock lines b with
         | Except.error e => Except.error e
         | Except.ok mid => placeBlocks mid zs) := fun zs => rfl
    rw [List.cons_append, hcons (bs ++ ys), hcons bs]
    cases hpb : placeBlock lines b with
    | error e => rfl
    | ok mid => exact ih mid

/-- Folding placement keeps the buffer length. -/
theorem placeBlocks_ok_length :
    ∀ (bs : List CodeBlock) (lines lines1 : List GoStr),
      placeBlocks lines bs = .ok lines1 → lines1.length = lines.length := by
  intro bs
  induction bs with
  | nil =>
    intro lines lines1 h
    cases h
    rfl
  | cons b rest ih =>
    intro lines lines1 h
    rw [show placeBlocks lines (b :: rest) =
          (match placeBlock lines b with
           | Except.error e => Except.error e
           | Except.ok mid => placeBlocks mid rest) from rfl] at h
    cases hpb : placeBlock lines b with
    | error e => rw [hpb] at h; cases h
    | ok mid =>
      rw [hpb] at h
      rw [ih mid lines1 h]
      exact placeLines_ok_length _ _ _ _ hpb

/-- A non-empty cell survives the whole successful fold unchanged. -/
theorem placeBlocks_keep :
    ∀ (bs : List CodeBlock) (lines lines1 : List GoStr),
      placeBlocks lines bs = .ok lines1 →
      ∀ (j : Nat) (c : GoStr), lines[j]? = some c → c ≠ [] → lines1[j]? = some c := by
  intro bs
  induction bs with
  | nil =>
    intro lines lines1 h j c hc _
    cases h
    exact hc
  | cons b rest ih =>
    intro lines lines1 h j c hc hne
    rw [show placeBlocks lines (b :: rest) =
          (match placeBlock lines b with
           | Except.error e => Except.error e
           | Except.ok mid => placeBlocks mid rest) from rfl] at h
    cases hpb : placeBlock lines b with
    | error e => rw [hpb] at h; cases h
    | ok mid =>
      rw [hpb] at h
      exact ih mid lines1 h j c (placeLines_ok_keep _ _ _ _ hpb j c hc hne) hne

/-- Per-block bound facts derived from the in-range hypothesis. -/
theorem block_bounds (b : CodeBlock) (n : Nat)
    (h : ∀ p ∈ placedList b, 1 ≤ p ∧ p.toNat ≤ n) :
    0 ≤ b.Position.StartLine - 1 ∧
    ∀ k, k < numLines b → (b.Position.StartLine - 1).toNat + k < n := by
  have h0 := h b.Position.StartLine
    ((mem_placedList b _).mpr ⟨0, numLines_pos b, by simp⟩)
  refine ⟨by omega, ?_⟩
  intro k hk
  have hp := h (b.Position.StartLine + (k : Int)) ((mem_placedList b _).mpr ⟨k, hk, rfl⟩)
  omega

/-- With every placement of every block in range, the fold never panics. -/
theorem placeBlocks_not_panic :
    ∀ (bs : List CodeBlock) (lines : List GoStr),
      (∀ b ∈ bs, ∀ p ∈ placedList b, 1 ≤ p ∧ p.toNat ≤ lines.length) →
      placeBlocks lines bs ≠ .error .panic := by
  intro bs
  induction bs with
  | nil =>
    intro lines _ h
    cases h
  | cons b rest ih =>
    intro lines hin h
    rw [show placeBlocks lines (b :: rest) =
          (match placeBlock lines b with
           | Except.error e => Except.error e
           | Except.ok mid => placeBlocks mid rest) from rfl] at h
    rcases block_bounds b lines.length (hin b (by simp)) with ⟨hb1, hb2⟩
    cases hpb : placeBlock lines b with
    | error e =>
      rw [hpb] at h
      cases h
      exact placeLines_not_panic _ _ _ hb1 hb2 hpb
    | ok mid =>
      rw [hpb] at h
      refine ih mid ?_ h
      intro b2 hb2m p hp
      have hlen := placeLines_ok_length _ _ _ _ hpb
      have := hin b2 (by simp [hb2m]) p hp
      omega

/-- Successful disjoint placement of a block list: each block's window
receives its lines and everything else is untouched. -/
theorem placeBlocks_ok_of :
    ∀ (bs : List CodeBlock) (lines : List GoStr),
      (∀ b ∈ bs, ∀ p ∈ placedList b, 1 ≤ p ∧ p.toNat ≤ lines.length) →
      bs.Pairwise disjRel →
      (∀ b ∈ bs, ∀ k, k < numLines b →
        lines[(b.Position.StartLine - 1).toNat + k]? = some []) →
      ∃ lines1, placeBlocks lines bs = .ok lines1 ∧ lines1.length = lines.length ∧
        (∀ b ∈ bs, ∀ k, k < numLines b →
          lines1[(b.Position.StartLine - 1).toNat + k]? = (codeLines b)[k]?) ∧
        (∀ j : Nat, (∀ b ∈ bs, ((j : Int) + 1) ∉ placedList b) → lines1[j]? = lines[j]?) := by
  intro bs
  induction bs with
  | nil =>
    intro lines _ _ _
    refine ⟨lines, rfl, rfl, by simp, fun j _ => rfl⟩
  | cons b rest ih =>
    intro lines hin hdisj hemp
    rcases block_bounds b lines.length (hin b (by simp)) with ⟨hb1, hb2⟩
    rcases List.pairwise_cons.mp hdisj with ⟨hdj, hdisj2⟩
    rcases placeLines_ok_of (codeLines b) lines (b.Position.StartLine - 1) hb1 hb2
        (fun k hk => hemp b (by simp) k hk) with ⟨lines2, hok2, hlen2, hJ2⟩
    have hpb : placeBlock lines b = .ok lines2 := hok2
    have hwin : ∀ j : Nat,
        ((b.Position.StartLine - 1).toNat ≤ j ∧
          j < (b.Position.StartLine - 1).toNat + numLines b) →
        ((j : Int) + 1) ∈ placedList b := by
      intro j hj
      refine (mem_placedList b _).mpr ⟨j - (b.Position.StartLine - 1).toNat, by omega, by omega⟩
    rcases ih lines2
        (by
          intro b2 hb2m p hp
          have h := hin b2 (by simp [hb2m]) p hp
          omega)
        hdisj2
        (by
          intro b2 hb2m k hk
          rcases block_bounds b2 lines.length (hin b2 (by simp [hb2m])) with ⟨hc1, hc2⟩
          rw [hJ2 _]
          rw [if_neg ?hnotwin]
          case hnotwin =>
            intro hwinj
            have hmem := hwin _ hwinj
            have hmem2 : (((b2.Position.StartLine - 1).toNat + k : Nat) : Int) + 1 ∈
                placedList b2 :=
              (mem_placedList b2 _).mpr ⟨k, hk, by omega⟩
            exact absurd hmem2 (hdj b2 hb2m _ hmem)
          exact hemp b2 (by simp [hb2m]) k hk)
        with ⟨lines1, hok1, hlen1, hW1, hU1⟩
    refine ⟨lines1, ?_, by rw [hlen1, hlen2], ?_, ?_⟩
    · rw [show placeBlocks lines (b :: rest) =
            (match placeBlock lines b with
             | Except.error e => Except.error e
             | Except.ok mid => placeBlocks mid rest) from rfl, hpb]
      exact hok1
    · intro b2 hb2m k hk
      rcases List.mem_cons.mp hb2m with rfl | hmem
      · have hU : lines1[(b2.Position.StartLine - 1).toNat + k]? =
            lines2[(b2.Position.StartLine - 1).toNat + k]? := by
          refine hU1 _ ?_
          intro b3 hb3 hmem3
          have hmemb : (((b2.Position.StartLine - 1).toNat + k : Nat) : Int) + 1 ∈
              placedList b2 :=
            (mem_placedList b2 _).mpr ⟨k, hk, by omega⟩
          exact (hdj b3 hb3 _ hmemb) hmem3
        rw [hU, hJ2 _, if_pos (by unfold numLines at hk; omega)]
        have h8 : (b2.Position.StartLine - 1).toNat + k - (b2.Position.StartLine - 1).toNat
            = k := by omega
        rw [h8]
      · exact hW1 b2 hmem k hk
    · intro j hj
      have h9 : lines1[j]? = lines2[j]? := hU1 j (fun b3 hb3 => hj b3 (by simp [hb3]))
      rw [h9, hJ2 _, if_neg ?hnw]
      case hnw =>
        intro hwj
        exact (hj b (by simp)) (hwin j hwj)

/-- A collision error of the fold names a line targeted by the failing
block whose cell was filled, non-empty, by some earlier attributable
block. -/
theorem placeBlocks_collision_attr :
    ∀ (bs : List CodeBlock) (lines : List GoStr) (bs0 : List CodeBlock) (m : Int),
      placeBlocks lines bs = .error (.collision m) →
      (∀ (j : Nat) (c : GoStr), lines[j]? = some c → c ≠ [] →
        ∃ b2 ∈ bs0, lineAt b2 ((j : Int) + 1) c) →
      ∃ l1 b l2, bs = l1 ++ b :: l2 ∧ m ∈ placedList b ∧
        ∃ b2 ∈ bs0 ++ l1, ∃ c, c ≠ [] ∧ lineAt b2 m c := by
  intro bs
  induction bs with
  | nil =>
    intro lines bs0 m h _
    cases h
  | cons b rest ih =>
    intro lines bs0 m h hinv
    rw [show placeBlocks lines (b :: rest) =
          (match placeBlock lines b with
           | Except.error e => Except.error e
           | Except.ok mid => placeBlocks mid rest) from rfl] at h
    cases hpb : placeBlock lines b with
    | error e =>
      rw [hpb] at h
      have he : e = .collision m := Except.error.inj h
      subst he
      rcases placeLines_collision _ _ _ _ hpb with ⟨k, hk, h0, hb, hm, c, hcell, hne⟩
      have hmm : m ∈ placedList b := by
        refine (mem_placedList b _).mpr ⟨k, by unfold numLines; exact hk, by omega⟩
      rcases hinv _ _ hcell hne with ⟨b2, hb2, hla⟩
      refine ⟨[], b, rest, rfl, hmm, b2, by simpa using hb2, c, hne, ?_⟩
      have h5 : ((((b.Position.StartLine - 1) + (k : Int)).toNat : Nat) : Int) + 1 = m := by
        omega
      rw [← h5]
      exact hla
    | ok mid =>
      rw [hpb] at h
      rcases ih mid (bs0 ++ [b]) m h
          (by
            intro j c hc hne
            rcases placeLines_ok_cells _ _ _ _ hpb j with h1 | ⟨k, hk, h0, hj, hw⟩
            · rcases hinv j c (h1 ▸ hc) hne with ⟨b2, hb2, hla⟩
              exact ⟨b2, by simp [hb2], hla⟩
            · refine ⟨b, by simp, ?_⟩
              rw [hw] at hc
              have hkb : k < (codeLines b).length := hk
              have hgc : (codeLines b).get ⟨k, hkb⟩ = c := by
                have h7 := List.getElem?_eq_getElem hkb
                rw [h7] at hc
                rw [List.get_eq_getElem]
                exact Option.some.inj hc
              refine ⟨k, by unfold numLines; exact hkb, by omega, hgc⟩)
          with ⟨l1, b3, l2, heq, hmm, b2, hb2, c, hne, hla⟩
      refine ⟨b :: l1, b3, l2, by rw [heq]; rfl, hmm, b2, ?_, c, hne, hla⟩
      have h6 : bs0 ++ [b] ++ l1 = bs0 ++ (b :: l1) := by simp
      rw [← h6]
      exact hb2

/-- Unfolding `writeShadow` once the last block is known and the buffer
size is non-negative. -/
theorem writeShadow_eq_placeBlocks (doc : Document) (lastB : CodeBlock)
    (hlast : doc.Blocks.getLast? = some lastB)
    (hml : ¬lastB.Position.EndLine < 0) :
    writeShadow doc =
      placeBlocks (List.replicate lastB.Position.EndLine.toNat []) doc.Blocks := by
  unfold writeShadow
  rw [hlast]
  dsimp only
  rw [if_neg hml]

/-- In-range placements force a non-negative buffer size. -/
theorem maxLine_nonneg (doc : Document) (lastB : CodeBlock)
    (hlast : doc.Blocks.getLast? = some lastB)
    (hin : placementsWithin lastB.Position.EndLine doc.Blocks) :
    ¬lastB.Position.EndLine < 0 := by
  have hmem : lastB ∈ doc.Blocks := List.mem_of_mem_getLast? (Option.mem_def.mpr hlast)
  have h1 := hin lastB hmem lastB.Position.StartLine
    ((mem_placedList _ _).mpr ⟨0, numLines_pos lastB, by simp⟩)
  omega

/-- With in-range placements the shadow writer never panics. -/
theorem writeShadow_not_panic (doc : Document) (lastB : CodeBlock)
    (hlast : doc.Blocks.getLast? = some lastB)
    (hin : placementsWithin lastB.Position.EndLine doc.Blocks) :
    writeShadow doc ≠ .error .panic := by
  rw [writeShadow_eq_placeBlocks doc lastB hlast (maxLine_nonneg doc lastB hlast hin)]
  refine placeBlocks_not_panic doc.Blocks _ ?_
  intro b hb p hp
  have h2 := hin b hb p hp
  rw [List.length_replicate]
  omega

/-- Every collision error of the shadow writer names a genuine collision
line of the document. -/
theorem writeShadow_collision_witness (doc : Document) (m : Int)
    (h : writeShadow doc = .error (.collision m)) : CollisionWitness doc m := by
  unfold writeShadow at h
  cases hlast : doc.Blocks.getLast? with
  | none => rw [hlast] at h; simp at h
  | some lastB =>
    rw [hlast] at h
    dsimp only at h
    by_cases hml : lastB.Position.EndLine < 0
    · rw [if_pos hml] at h
      simp at h
    · rw [if_neg hml] at h
      rcases placeBlocks_collision_attr doc.Blocks _ [] m h
          (by
            intro j c hc hne
            rw [List.getElem?_replicate] at hc
            by_cases hj : j < lastB.Position.EndLine.toNat
            · rw [if_pos hj] at hc
              exact absurd (Option.some.inj hc).symm hne
            · rw [if_neg hj] at hc
              cases hc)
          with ⟨l1, b, l2, heq, hm, b2, hb2, c, hne, hla⟩
      exact ⟨l1, b, l2, heq, hm, b2, by simpa using hb2, c, hne, hla⟩

/-- With in-range placements, a genuine collision prevents success. -/
theorem writeShadow_not_ok_of_witness (doc : Document) (lastB : CodeBlock)
    (hlast : doc.Blocks.getLast? = some lastB)
    (hin : placementsWithin lastB.Position.EndLine doc.Blocks)
    (m : Int) (hw : CollisionWitness doc m) :
    ∀ lines1, writeShadow doc ≠ .ok lines1 := by
  intro lines1 hok
  rw [writeShadow_eq_placeBlocks doc lastB hlast (maxLine_nonneg doc lastB hlast hin)] at hok
  rcases hw with ⟨l1, b, l2, heq, hmp, b2, hb2, c, hne, hla⟩
  rw [heq, placeBlocks_append] at hok
  cases hf1 : placeBlocks (List.replicate lastB.Position.EndLine.toNat []) l1 with
  | error e => rw [hf1] at hok; cases hok
  | ok mid =>
    rw [hf1] at hok
    dsimp only at hok
    rw [show placeBlocks mid (b :: l2) =
          (match placeBlock mid b with
           | Except.error e => Except.error e
           | Except.ok mid2 => placeBlocks mid2 l2) from rfl] at hok
    cases hpb : placeBlock mid b with
    | error e => rw [hpb] at hok; cases hok
    | ok mid2 =>
      rcases List.append_of_mem hb2 with ⟨s, t, hst⟩
      rw [hst, placeBlocks_append] at hf1
      cases hfs : placeBlocks (List.replicate lastB.Position.EndLine.toNat []) s with
      | error e => rw [hfs] at hf1; cases hf1
      | ok mids =>
        rw [hfs] at hf1
        dsimp only at hf1
        rw [show placeBlocks mids (b2 :: t) =
              (match placeBlock mids b2 with
               | Except.error e => Except.error e
               | Except.ok mids2 => placeBlocks mids2 t) from rfl] at hf1
        cases hpb2 : placeBlock mids b2 with
        | error e => rw [hpb2] at hf1; cases hf1
        | ok mids2 =>
          rw [hpb2] at hf1
          rcases hla with ⟨k, hk, hmeq, hgc⟩
          have hk2 : k < (codeLines b2).length := hk
          rcases placeLines_ok_writes _ _ _ _ hpb2 k hk2 with ⟨h02, hb2b, hw2⟩
          have hcv : mids2[(b2.Position.StartLine - 1).toNat + k]? = some c := by
            rw [hw2, List.getElem?_eq_getElem hk2]
            rw [List.get_eq_getElem] at hgc
            rw [hgc]
          have hmidc : mid[(b2.Position.StartLine - 1).toNat + k]? = some c :=
            placeBlocks_keep t mids2 mid hf1 _ c hcv hne
          rcases (mem_placedList b m).mp hmp with ⟨kb, hkb, hmeq2⟩
          have hkb2 : kb < (codeLines b).length := hkb
          rcases placeLines_ok_writes _ _ _ _ hpb kb hkb2 with ⟨h0b, _, _⟩
          have hent := placeLines_ok_entry _ _ _ _ hpb kb hkb2
          have hidx : (b.Position.StartLine - 1).toNat + kb =
              (b2.Position.StartLine - 1).toNat + k := by omega
          rw [hidx, hmidc] at hent
          exact hne (Option.some.inj hent)

/-! ## Claim C9 -/

/-- Claim C9: under the precondition that every placed line of every
block lies between 1 and the last block's `EndLine`, the shadow writer is
total — it never reaches the unchecked indexing panic, returning success
or the collision error; a document with zero blocks, and a block placing a
line beyond the last block's `EndLine`, each panic. -/
theorem c9_shadow_totality :
    (∀ (doc : Document) (lastB : CodeBlock),
      doc.Blocks.getLast? = some lastB →
      placementsWithin lastB.Position.EndLine doc.Blocks →
      writeShadow doc ≠ .error .panic) ∧
    writeShadow c9DocEmpty = .error .panic ∧
    writeShadow c9DocOob = .error .panic := by
  refine ⟨?_, by decide, by decide⟩
  intro doc lastB hlast hin
  exact writeShadow_not_panic doc lastB hlast hin

/-- Witness for C9 at a concrete in-range document. -/
theorem c9_shadow_totality_witness : writeShadow c9DocOk ≠ .error .panic :=
  c9_shadow_totality.1 c9DocOk
    { Code := gs "a()", Source := gs "/w/a.litlua.md",
      Position := { StartLine := 2, EndLine := 3 } }
    (by decide) (by decide)

/-! ## Claim C1 -/

/-- Counterexample to C1 as stated: a single block — trivially in
ascending order with trivially non-overlapping placements — whose code has
one more line than its position spans makes Shadow-mode `WriteContent`
panic on an out-of-range index instead of writing `maxLine` lines. -/
theorem c1_shadow_fidelity_cex :
    ascendingBlocks c1DocCex.Blocks ∧ disjointBlocks c1DocCex.Blocks ∧
    writeShadow c1DocCex = .error .panic ∧ shadowStream c1DocCex = [] := by
  refine ⟨by decide, by decide, by decide, by decide⟩

/-- Amended C1: for every document with blocks in ascending position
order, pairwise non-overlapping placements, and — as the counterexample
forces — every placed line within 1 and the last block's `EndLine`,
Shadow-mode `WriteContent` writes exactly `maxLine` lines: the `k`-th line
of a block with start line `S` appears verbatim as output line `S+k`,
every untargeted line is empty, and each line is newline-terminated on the
stream. -/
theorem c1_shadow_fidelity (doc : Document) (lastB : CodeBlock)
    (hlast : doc.Blocks.getLast? = some lastB)
    (hasc : ascendingBlocks doc.Blocks)
    (hdisj : disjointBlocks doc.Blocks)
    (hin : placementsWithin lastB.Position.EndLine doc.Blocks) :
    ∃ lines, writeShadow doc = .ok lines ∧
      lines.length = lastB.Position.EndLine.toNat ∧
      (∀ b ∈ doc.Blocks, ∀ k, k < numLines b →
        lines[(b.Position.StartLine + (k : Int) - 1).toNat]? = (codeLines b)[k]?) ∧
      (∀ j : Nat, j < lines.length → ¬isPlaced doc ((j : Int) + 1) →
        lines[j]? = some []) ∧
      shadowStream doc = lines.foldr (fun l acc => l ++ '\n' :: acc) [] := by
  have hml := maxLine_nonneg doc lastB hlast hin
  have hEQ := writeShadow_eq_placeBlocks doc lastB hlast hml
  have hinN : ∀ b ∈ doc.Blocks, ∀ p ∈ placedList b,
      1 ≤ p ∧ p.toNat ≤ (List.replicate lastB.Position.EndLine.toNat ([] : GoStr)).length := by
    intro b hb p hp
    have h2 := hin b hb p hp
    rw [List.length_replicate]
    omega
  rcases placeBlocks_ok_of doc.Blocks (List.replicate lastB.Position.EndLine.toNat [])
      hinN hdisj
      (by
        intro b hb k hk
        rcases block_bounds b (List.replicate lastB.Position.EndLine.toNat ([] : GoStr)).length
            (hinN b hb) with ⟨hc1, hc2⟩
        rw [List.getElem?_replicate, if_pos ?hlt]
        case hlt =>
          have := hc2 k hk
          rw [List.length_replicate] at this
          exact this)
      with ⟨lines1, hok, hlen, hW, hU⟩
  have hws : writeShadow doc = .ok lines1 := by rw [hEQ]; exact hok
  refine ⟨lines1, hws, by rw [hlen, List.length_replicate], ?_, ?_, ?_⟩
  · intro b hb k hk
    rcases block_bounds b (List.replicate lastB.Position.EndLine.toNat ([] : GoStr)).length
        (hinN b hb) with ⟨hc1, _⟩
    have h3 : (b.Position.StartLine + (k : Int) - 1).toNat =
        (b.Position.StartLine - 1).toNat + k := by omega
    rw [h3]
    exact hW b hb k hk
  · intro j hj hnp
    have h4 : lines1[j]? = (List.replicate lastB.Position.EndLine.toNat ([] : GoStr))[j]? :=
      hU j (fun b hb hm => hnp ⟨b, hb, hm⟩)
    rw [h4, List.getElem?_replicate, if_pos (by rw [hlen, List.length_replicate] at hj; exact hj)]
  · unfold shadowStream
    rw [hws]

/-- Witness for the amended C1 at the two-block positional example. -/
theorem c1_shadow_fidelity_witness :
    ∃ lines, writeShadow c1DocA = .ok lines ∧
      lines.length = (21 : Int).toNat ∧
      (∀ b ∈ c1DocA.Blocks, ∀ k, k < numLines b →
        lines[(b.Position.StartLine + (k : Int) - 1).toNat]? = (codeLines b)[k]?) ∧
      (∀ j : Nat, j < lines.length → ¬isPlaced c1DocA ((j : Int) + 1) →
        lines[j]? = some []) ∧
      shadowStream c1DocA = lines.foldr (fun l acc => l ++ '\n' :: acc) [] :=
  c1_shadow_fidelity c1DocA
    { Code := gs "print(2)", Source := gs "/w/a.litlua.md",
      Position := { StartLine := 20, EndLine := 21 } }
    (by decide) (by decide) (by decide) (by decide)

/-! ## Claim C7 -/

/-- Claim C7: an error of Shadow-mode `WriteContent` writes nothing to the
output stream; every collision error names a 1-indexed line genuinely
targeted by a later block and already filled, non-empty, by an earlier
block; and, with in-range placements, the presence of such a collision
forces exactly that error. -/
theorem c7_shadow_collision :
    (∀ (doc : Document) (e : ShadowErr),
      writeShadow doc = .error e → shadowStream doc = []) ∧
    (∀ (doc : Document) (m : Int),
      writeShadow doc = .error (.collision m) → CollisionWitness doc m) ∧
    (∀ (doc : Document) (lastB : CodeBlock),
      doc.Blocks.getLast? = some lastB →
      placementsWithin lastB.Position.EndLine doc.Blocks →
      (∃ m, CollisionWitness doc m) →
      ∃ m2, writeShadow doc = .error (.collision m2) ∧ CollisionWitness doc m2) := by
  refine ⟨?_, ?_, ?_⟩
  · intro doc e h
    unfold shadowStream
    rw [h]
  · intro doc m h
    exact writeShadow_collision_witness doc m h
  · rintro doc lastB hlast hin ⟨m, hw⟩
    cases hres : writeShadow doc with
    | ok lines1 =>
      exact absurd hres (writeShadow_not_ok_of_witness doc lastB hlast hin m hw lines1)
    | error e =>
      cases e with
      | panic => exact absurd hres (writeShadow_not_panic doc lastB hlast hin)
      | collision m2 =>
        exact ⟨m2, rfl, writeShadow_collision_witness doc m2 hres⟩

/-- Witness for C7: the two blocks both targeting line 3 produce the
collision error naming line 3, a genuine collision, and no output. -/
theorem c7_shadow_collision_witness :
    shadowStream c7Doc = [] ∧
    ∃ m2, writeShadow c7Doc = .error (.collision m2) ∧ CollisionWitness c7Doc m2 := by
  have h2 := c7_shadow_collision.2.2 c7Doc
    { Code := gs "print(2)", Source := gs "/w/a.litlua.md",
      Position := { StartLine := 3, EndLine := 3 } }
    (by decide) (by decide)
    ⟨3, ⟨[{ Code := gs "print(1)", Source := gs "/w/a.litlua.md",
            Position := { StartLine := 3, EndLine := 3 } }],
         { Code := gs "print(2)", Source := gs "/w/a.litlua.md",
           Position := { StartLine := 3, EndLine := 3 } }, [], by decide, by decide,
         { Code := gs "print(1)", Source := gs "/w/a.litlua.md",
           Position := { StartLine := 3, EndLine := 3 } }, by decide,
         gs "print(1)", by decide, 0, numLines_pos _, by decide, by decide⟩⟩
  rcases h2 with ⟨m2, herr, hwit⟩
  exact ⟨c7_shadow_collision.1 c7Doc (.collision m2) herr, m2, herr, hwit⟩

/-- Witness for the amended C10 at a concrete transformer and pragma. -/
theorem c10_idempotent_default_ext_witness :
    CleanPragmaOutputExt { WriterMode := WriteMode.ModePretty }
        { Output := CleanPragmaOutputExt { WriterMode := WriteMode.ModePretty }
            { Output := gs "bar.lua" } } =
      CleanPragmaOutputExt { WriterMode := WriteMode.ModePretty } { Output := gs "bar.lua" } :=
  c10_idempotent_default_ext { WriterMode := WriteMode.ModePretty } rfl { Output := gs "bar.lua" }
